import Mathlib

/-!
Verification of the markdown-to-TypeScript rule extraction scripts
`parse_rules.py` (header-driven variant) and `parse_rules_complete.py`
(complete variant).

Both scripts scan the markdown text line by line.  We embed the Python
string operations used by the scripts (`strip`, `startswith`, `in`,
`replace`, `int`, `' '.join`, `split('\n')`) as functions on `List Char`,
embed the scan loops both structurally (recursion on the remaining lines)
and as fueled index-driven loops mirroring the Python `while i < len(lines)`
form, and embed the TypeScript emitters line by line.
-/

/-- A line of the input document, as a list of characters. -/
abbrev Line := List Char

/-- Python `str.strip` whitespace class (ASCII part; the inputs here are
markdown text). -/
def isSpaceCh (c : Char) : Bool :=
  c = ' ' || c = '\t' || c = '\n' || c = '\r' || c = '\x0b' || c = '\x0c'

/-- Decimal digit test, as used by the regex class `\d`. -/
def isDigitCh (c : Char) : Bool :=
  '0' ≤ c && c ≤ '9'

/-- Python `s.startswith(pat)`: `startswith pat s` is true when `pat` is an
initial segment of `s`. -/
def startswith : List Char → List Char → Bool
  | [], _ => true
  | _ :: _, [] => false
  | p :: ps, c :: cs => p = c && startswith ps cs

/-- Python `s.endswith(pat)`. -/
def endswith (pat s : List Char) : Bool :=
  startswith pat.reverse s.reverse

/-- Python `pat in s` substring test. -/
def hasSubstr (pat : List Char) : List Char → Bool
  | [] => startswith pat []
  | c :: cs => startswith pat (c :: cs) || hasSubstr pat cs

/-- Python `str.lstrip()`. -/
def lstrip (s : List Char) : List Char :=
  s.dropWhile isSpaceCh

/-- Python `str.rstrip()`. -/
def rstrip (s : List Char) : List Char :=
  (s.reverse.dropWhile isSpaceCh).reverse

/-- Python `str.strip()`. -/
def pstrip (s : List Char) : List Char :=
  lstrip (rstrip s)

/-- Python `s.replace(pat, rep)`: replace every (left-to-right,
non-overlapping) occurrence of `pat` by `rep`.  Python's behaviour for an
empty pattern is never exercised by the scripts; we return `s` unchanged in
that case. -/
def replaceAllGo (pat rep : List Char) : Nat → List Char → List Char
  | _, [] => []
  | 0, s => s
  | fuel + 1, c :: cs =>
    if pat.length ≠ 0 ∧ startswith pat (c :: cs) then
      rep ++ replaceAllGo pat rep fuel (List.drop (pat.length - 1) cs)
    else
      c :: replaceAllGo pat rep fuel cs

/-- Python `s.replace(pat, rep)` proper: the fuel `s.length` is enough,
since each step consumes at least one character. -/
def replaceAll (pat rep : List Char) (s : List Char) : List Char :=
  replaceAllGo pat rep s.length s

theorem replaceAllGo_fuel (pat rep : List Char) :
    ∀ (fuel fuel' : Nat) (s : List Char), s.length ≤ fuel → s.length ≤ fuel' →
      replaceAllGo pat rep fuel s = replaceAllGo pat rep fuel' s := by
  intro fuel
  induction fuel with
  | zero =>
    intro fuel' s hs hs'
    have : s = [] := by
      cases s with
      | nil => rfl
      | cons a b => simp at hs
    subst this
    cases fuel' <;> simp [replaceAllGo]
  | succ fuel ih =>
    intro fuel' s hs hs'
    cases s with
    | nil => cases fuel' <;> simp [replaceAllGo]
    | cons c cs =>
      cases fuel' with
      | zero => simp at hs'
      | succ fuel'' =>
        simp only [replaceAllGo]
        simp only [List.length_cons] at hs hs'
        by_cases hcond : pat.length ≠ 0 ∧ startswith pat (c :: cs) = true
        · rw [if_pos hcond, if_pos hcond,
            ih fuel'' (List.drop (pat.length - 1) cs)
              (by simp only [List.length_drop]; omega)
              (by simp only [List.length_drop]; omega)]
        · rw [if_neg hcond, if_neg hcond, ih fuel'' cs (by omega) (by omega)]

/-- One-step equation for `replaceAll` on a nonempty string. -/
theorem replaceAll_cons (pat rep : List Char) (c : Char) (cs : List Char) :
    replaceAll pat rep (c :: cs) =
      if pat.length ≠ 0 ∧ startswith pat (c :: cs) then
        rep ++ replaceAll pat rep (List.drop (pat.length - 1) cs)
      else
        c :: replaceAll pat rep cs := by
  unfold replaceAll
  rw [show (c :: cs).length = cs.length + 1 from rfl, replaceAllGo]
  by_cases hcond : pat.length ≠ 0 ∧ startswith pat (c :: cs) = true
  · rw [if_pos hcond, if_pos hcond,
      replaceAllGo_fuel pat rep cs.length (List.drop (pat.length - 1) cs).length
        (List.drop (pat.length - 1) cs)
        (by simp only [List.length_drop]; omega) le_rfl]
  · rw [if_neg hcond, if_neg hcond]

theorem replaceAll_nil (pat rep : List Char) : replaceAll pat rep [] = [] := rfl

/-- Value of a digit string, as computed by Python `int` on a `\d+` match. -/
def digitsVal (ds : List Char) : Nat :=
  ds.foldl (fun a c => 10 * a + (c.toNat - 48)) 0

/-- Decimal rendering of a natural number, as produced by Python's string
interpolation of an `int`. -/
def natCharsGo : Nat → Nat → List Char
  | 0, _ => []
  | fuel + 1, n =>
    if n < 10 then [Char.ofNat (48 + n)]
    else natCharsGo fuel (n / 10) ++ [Char.ofNat (48 + n % 10)]

/-- Decimal rendering proper: the fuel `n + 1` is enough, since `n / 10`
strictly decreases. -/
def natChars (n : Nat) : List Char := natCharsGo (n + 1) n

theorem natCharsGo_fuel :
    ∀ (n fuel fuel' : Nat), n < fuel → n < fuel' →
      natCharsGo fuel n = natCharsGo fuel' n := by
  intro n
  induction n using Nat.strong_induction_on with
  | _ n ih =>
    intro fuel fuel' hf hf'
    cases fuel with
    | zero => omega
    | succ f =>
      cases fuel' with
      | zero => omega
      | succ f' =>
        simp only [natCharsGo]
        by_cases h10 : n < 10
        · rw [if_pos h10, if_pos h10]
        · rw [if_neg h10, if_neg h10,
            ih (n / 10) (Nat.div_lt_self (by omega) (by omega))
              f f' (by omega) (by omega)]

/-- One-step equation for `natChars`. -/
theorem natChars_eq (n : Nat) :
    natChars n =
      if n < 10 then [Char.ofNat (48 + n)]
      else natChars (n / 10) ++ [Char.ofNat (48 + n % 10)] := by
  unfold natChars
  rw [natCharsGo]
  by_cases h10 : n < 10
  · rw [if_pos h10, if_pos h10]
  · rw [if_neg h10, if_neg h10,
      natCharsGo_fuel (n / 10) n (n / 10 + 1)
        (Nat.div_lt_self (by omega) (by omega)) (by omega)]

/-- Python `content.split('\n')`. -/
def splitNl : List Char → List (List Char)
  | [] => [[]]
  | c :: cs =>
    if c = '\n' then [] :: splitNl cs
    else
      match splitNl cs with
      | [] => [[c]]
      | l :: ls => (c :: l) :: ls

/-- Python `' '.join(fragments)` (the complete variant's description
assembly). -/
def joinSpace : List (List Char) → List Char
  | [] => []
  | [f] => f
  | f :: fs => f ++ ' ' :: joinSpace fs

/-- The header-driven variant's description assembly: starting from the
empty string, a space separator is inserted only when the accumulator is
already nonempty (`if description: description += ' '`). -/
def descAcc (fs : List (List Char)) : List Char :=
  fs.foldl (fun acc f => if acc.isEmpty then f else acc ++ ' ' :: f) []

/-- `parse_rules.py` lines 21-28: the four fixed priority-tier header
texts, tested with `line.startswith(...)` in an `if`/`elif` cascade on the
stripped line; the winning branch yields the tier string stored in
`current_priority`. -/
def tierOf (ls : List Char) : Option (List Char) :=
  if startswith "## **CRITICAL MANDATORY REQUIREMENTS**".data ls then
    some "critical".data
  else if startswith "## **HIGH PRIORITY REQUIREMENTS**".data ls then
    some "high".data
  else if startswith "## **IMPORTANT OPERATIONAL REQUIREMENTS**".data ls then
    some "important".data
  else if startswith "## **DOCUMENT PRIORITIZATION METHODOLOGY**".data ls then
    some "info".data
  else none

/-- `parse_rules.py` line 31: `line.startswith('### **') and
line.endswith('**')` on the stripped line. -/
def secHdrCond (ls : List Char) : Bool :=
  startswith "### **".data ls && endswith "**".data ls

/-- `parse_rules.py` line 39: `line.replace('### **', '').replace('**', '')`. -/
def secTitle (ls : List Char) : List Char :=
  replaceAll "**".data [] (replaceAll "### **".data [] ls)

/-- Model of `re.match(r'^\*\*(\d+)\.\s+(.+)\*\*$', line)` (both scripts):
on success, returns the rule number `int(group(1))` and the title
`group(2)`.  After `**`, the greedy `\d+` must take the maximal digit run
(shortening it puts a digit where the literal `\.` is expected).  For
`\s+(.+)\*\*$` on the remainder `r2`: the greedy `\s+` takes the maximal
whitespace run `w`, leaving `body`; if `body` has at least one character
before a final `**` the group is `body` without that final `**`; otherwise
the engine backtracks into the whitespace (`.` matches whitespace), and the
group is the single character just before the final `**`, provided a
nonempty `\s+` part remains (`r2.length ≥ 4`). -/
def ruleHeaderMatch (ls : List Char) : Option (Nat × List Char) :=
  match ls with
  | '*' :: '*' :: r =>
    let ds := r.takeWhile isDigitCh
    let r1 := r.dropWhile isDigitCh
    if ds.isEmpty then none
    else
      match r1 with
      | '.' :: r2 =>
        let w := r2.takeWhile isSpaceCh
        let body := r2.dropWhile isSpaceCh
        if w.isEmpty then none
        else if ¬ endswith "**".data r2 then none
        else if 3 ≤ body.length then
          some (digitsVal ds, body.take (body.length - 2))
        else if 4 ≤ r2.length then
          some (digitsVal ds, (r2.drop (r2.length - 3)).take 1)
        else none
      | _ => none
  | _ => none

/-- `parse_rules.py` line 52: the description loop consumes a line while
`lines[i].strip().startswith('-') and not
lines[i].strip().startswith('- **Source')`. -/
def bulletCond1 (l : Line) : Bool :=
  startswith "-".data (pstrip l) && !startswith "- **Source".data (pstrip l)

/-- `parse_rules_complete.py` line 26: the description loop consumes a line
while `lines[i].strip().startswith('-') and '**Source**' not in lines[i]`. -/
def bulletCond2 (l : Line) : Bool :=
  startswith "-".data (pstrip l) && !hasSubstr "**Source**".data l

/-- Description fragment of a bullet line: `lines[i].strip()[1:].strip()`
(both scripts). -/
def frag (l : Line) : List Char :=
  pstrip ((pstrip l).drop 1)

/-- Source field extracted from a source line:
`lines[i].strip().replace('- **Source**:', '').strip()` (both scripts). -/
def srcOf (l : Line) : List Char :=
  pstrip (replaceAll "- **Source**:".data [] (pstrip l))

/-- A rule record (`ProcurementRule` in the emitted TypeScript): the dicts
built at `parse_rules.py` lines 64-69 and `parse_rules_complete.py` lines
39-44. -/
structure PRule where
  number : Nat
  title : List Char
  description : List Char
  source : List Char
deriving DecidableEq, Repr

/-- A section record of the header-driven variant (`parse_rules.py` lines
33-37): `priority` is `current_priority`, which is `None` until a
priority-tier header has been seen. -/
structure PSection where
  title : List Char
  priority : Option (List Char)
  rules : List PRule
deriving DecidableEq, Repr

/-- A section record of the complete variant (`parse_rules_complete.py`
lines 75-79): `priority` is always a string. -/
structure GSection where
  title : List Char
  priority : List Char
  rules : List PRule
deriving DecidableEq, Repr

/-- Scanner state of `parse_rules.py`: the module-level variables
`sections`, `current_section`, `current_priority`, `rules`. -/
structure St1 where
  sections : List PSection
  curSec : Option (List Char)
  curPrio : Option (List Char)
  rules : List PRule
deriving DecidableEq, Repr

/-- Python truthiness of `current_section` (`None` and the empty string are
falsy). -/
def curSecTruthy : Option (List Char) → Bool
  | none => false
  | some t => !t.isEmpty

/-- `parse_rules.py` lines 32 and 74: `if current_section and rules`. -/
def flushCond (s : St1) : Bool :=
  curSecTruthy s.curSec && !s.rules.isEmpty

/-- The section flushed when `flushCond` holds (`parse_rules.py` lines
33-37 and 75-79), as a zero-or-one element list. -/
def flushList (s : St1) : List PSection :=
  if flushCond s then [⟨s.curSec.getD [], s.curPrio, s.rules⟩] else []

/-- The description loop of `parse_rules.py` (lines 50-57), structurally:
returns the fragments consumed and the remaining lines (the first remaining
line, if any, is the terminating line). -/
def consume1 : List Line → List (List Char) × List Line
  | [] => ([], [])
  | l :: r =>
    if bulletCond1 l then
      let p := consume1 r
      (frag l :: p.1, p.2)
    else ([], l :: r)

/-- The description loop of `parse_rules_complete.py` (lines 24-29),
structurally. -/
def consume2 : List Line → List (List Char) × List Line
  | [] => ([], [])
  | l :: r =>
    if bulletCond2 l then
      let p := consume2 r
      (frag l :: p.1, p.2)
    else ([], l :: r)

theorem consume1_len (ls : List Line) : (consume1 ls).2.length ≤ ls.length := by
  induction ls with
  | nil => simp [consume1]
  | cons l r ih =>
    by_cases h : bulletCond1 l
    · simp [consume1, h]
      omega
    · simp [consume1, h]

theorem consume2_len (ls : List Line) : (consume2 ls).2.length ≤ ls.length := by
  induction ls with
  | nil => simp [consume2]
  | cons l r ih =>
    by_cases h : bulletCond2 l
    · simp [consume2, h]
      omega
    · simp [consume2, h]

theorem consume1_eq (ls : List Line) :
    consume1 ls = ((ls.takeWhile bulletCond1).map frag, ls.dropWhile bulletCond1) := by
  induction ls with
  | nil => simp [consume1]
  | cons l r ih =>
    by_cases h : bulletCond1 l
    · simp [consume1, h, List.takeWhile_cons, List.dropWhile_cons, ih]
    · simp [consume1, h, List.takeWhile_cons, List.dropWhile_cons]

theorem consume2_eq (ls : List Line) :
    consume2 ls = ((ls.takeWhile bulletCond2).map frag, ls.dropWhile bulletCond2) := by
  induction ls with
  | nil => simp [consume2]
  | cons l r ih =>
    by_cases h : bulletCond2 l
    · simp [consume2, h, List.takeWhile_cons, List.dropWhile_cons, ih]
    · simp [consume2, h, List.takeWhile_cons, List.dropWhile_cons]

/-- The main scan loop of `parse_rules.py` (lines 17-79), structurally: the
remaining lines stand for the index `i` into `lines`.  Branches, in the
`if`/`elif` order of the source: priority-tier headers (lines 21-28),
section headers (lines 31-39, flushing the open section when
`current_section and rules` is truthy), rule headers (lines 42-69; when the
full pattern `^\*\*(\d+)\.\s+(.+)\*\*$` fails the branch does nothing, so
the branch is modelled by the full match), and the final `i += 1`, which
also steps past the line that terminated a description run.  At end of
input the open section is flushed under the same condition (lines 74-79). -/
def scan1 : St1 → List Line → List PSection
  | s, [] => s.sections ++ flushList s
  | s, l :: rest =>
    match tierOf (pstrip l) with
    | some p => scan1 ⟨s.sections, s.curSec, some p, s.rules⟩ rest
    | none =>
      if secHdrCond (pstrip l) then
        scan1 ⟨s.sections ++ flushList s, some (secTitle (pstrip l)), s.curPrio,
               if flushCond s then [] else s.rules⟩ rest
      else
        match ruleHeaderMatch (pstrip l) with
        | some nt =>
          match hc : consume1 rest with
          | (fs, r) =>
            match r with
            | [] =>
              scan1 ⟨s.sections, s.curSec, s.curPrio,
                     s.rules ++ [⟨nt.1, nt.2, descAcc fs, []⟩]⟩ []
            | term :: r2 =>
              scan1 ⟨s.sections, s.curSec, s.curPrio,
                     s.rules ++ [⟨nt.1, nt.2, descAcc fs,
                       if hasSubstr "- **Source**:".data term then srcOf term
                       else []⟩]⟩ r2
        | none => scan1 s rest
termination_by _ ls => ls.length
decreasing_by
  · simp
  · simp
  · simp
  · have := consume1_len rest
    rw [hc] at this
    simp at this ⊢
    omega
  · simp

/-- `parse_rules.py`: scan the whole document from the initial state
(lines 9-12). -/
def extract1 (content : List Char) : List PSection :=
  scan1 ⟨[], none, none, []⟩ (splitNl content)

theorem consume2_cons_len {ls : List Line} {fs : List (List Char)}
    {term : Line} {r2 : List Line} (hc : consume2 ls = (fs, term :: r2)) :
    r2.length + 1 ≤ ls.length := by
  have := consume2_len ls
  rw [hc] at this
  simpa using this

/-- The extraction loop of `parse_rules_complete.py` (lines 13-46),
structurally.  A terminating line that is not a source line is not stepped
past (`i` is only advanced past a matched source line or in the `else`
branch), so it is re-examined as a potential rule header. -/
def rules2 : List Line → List PRule
  | [] => []
  | l :: rest =>
    match ruleHeaderMatch (pstrip l) with
    | some nt =>
      match hc : consume2 rest with
      | (fs, r) =>
        match r with
        | [] => [⟨nt.1, nt.2, joinSpace fs, []⟩]
        | term :: r2 =>
          if hasSubstr "**Source**:".data term then
            ⟨nt.1, nt.2, joinSpace fs, srcOf term⟩ :: rules2 r2
          else
            ⟨nt.1, nt.2, joinSpace fs, []⟩ :: rules2 (term :: r2)
    | none => rules2 rest
termination_by ls => ls.length
decreasing_by
  · simp only [List.length_cons]
    have := consume2_cons_len hc
    omega
  · simp only [List.length_cons]
    have := consume2_cons_len hc
    omega
  · simp

/-- `parse_rules_complete.py`: extract all rules from the document text. -/
def extractRules2 (content : List Char) : List PRule :=
  rules2 (splitNl content)

/-- `parse_rules_complete.py` line 68: the initial section title. -/
def coreTitle : List Char := "Core Principles & Legal Framework".data

/-- `parse_rules_complete.py` line 74: the rule numbers at which a section
is closed. -/
def sectionBreaks : List Nat :=
  [3, 11, 23, 29, 37, 46, 55, 67, 78, 84, 100, 108, 114, 120, 128, 134,
   141, 145, 152, 159, 164, 181, 190]

/-- `parse_rules_complete.py` line 77: `"critical" if rule['number'] <= 46
else "high" if rule['number'] <= 100 else "important"`. -/
def prioForNum (n : Nat) : List Char :=
  if n ≤ 46 then "critical".data
  else if n ≤ 100 then "high".data
  else "important".data

/-- `parse_rules_complete.py` lines 82-127: the `elif` chain assigning the
next section title after a break; `none` when no branch fires (never the
case for a member of `sectionBreaks`). -/
def nextTitleOpt (n : Nat) : Option (List Char) :=
  if n = 3 then some "Strategic Planning Documents".data
  else if n = 11 then some "Fraud, Corruption & Integrity".data
  else if n = 23 then some "Conflict of Interest".data
  else if n = 29 then some "Eligibility & Participation".data
  else if n = 37 then some "Prior Review Requirements".data
  else if n = 46 then some "Selection Methods & Processes".data
  else if n = 55 then some "Bid/Proposal Requirements".data
  else if n = 67 then some "Evaluation Procedures".data
  else if n = 78 then some "Contract Award & Management".data
  else if n = 84 then some "Complaints Handling".data
  else if n = 100 then some "Procurement Planning".data
  else if n = 108 then some "Market Engagement".data
  else if n = 114 then some "Sustainability Requirements".data
  else if n = 120 then some "Alternative Procurement".data
  else if n = 128 then some "Consultant Selection".data
  else if n = 134 then some "Quality Considerations".data
  else if n = 141 then some "Small Contracts".data
  else if n = 145 then some "Direct Contracting".data
  else if n = 152 then some "Framework Agreements".data
  else if n = 159 then some "E-Procurement Systems".data
  else if n = 164 then some "Transparency & Disclosure".data
  else if n = 181 then some "Documentation & Records".data
  else if n = 190 then some "Additional Process Requirements".data
  else none

/-- The grouping loop of `parse_rules_complete.py` (lines 60-135): the
state is the pending section title (`None` before the first rule) and the
accumulated `section_rules`; a rule whose number is in `sectionBreaks`
closes the current section with `prioForNum`; leftover rules are flushed
with priority `"important"` (lines 130-135). -/
def group2Go : Option (List Char) → List PRule → List PRule → List GSection
  | curTitle, acc, [] =>
    if acc.isEmpty then [] else [⟨curTitle.getD [], "important".data, acc⟩]
  | curTitle, acc, r :: rs =>
    let ct := curTitle.getD coreTitle
    let acc2 := acc ++ [r]
    if r.number ∈ sectionBreaks then
      ⟨ct, prioForNum r.number, acc2⟩ ::
        group2Go (some ((nextTitleOpt r.number).getD ct)) [] rs
    else group2Go (some ct) acc2 rs

/-- `parse_rules_complete.py` lines 60-135: group the extracted rules into
sections. -/
def group2 (rules : List PRule) : List GSection :=
  group2Go none [] rules

/-- The inner description loop of `parse_rules.py` (lines 52-57) in fueled,
index-driven form, exactly as the Python `while i < len(lines) and ...`:
returns the fragments and the final value of `i` (the index of the
terminating line, or `len(lines)`).  Fuel is a proof artifact only; one
unit is spent per iteration. -/
def inner1 (L : List Line) : Nat → Nat → Option (List (List Char) × Nat)
  | 0, _ => none
  | fuel + 1, i =>
    match L[i]? with
    | none => some ([], i)
    | some l =>
      if bulletCond1 l then
        match inner1 L fuel (i + 1) with
        | some (fs, j) => some (frag l :: fs, j)
        | none => none
      else some ([], i)

/-- The inner description loop of `parse_rules_complete.py` (lines 26-29)
in fueled, index-driven form. -/
def inner2 (L : List Line) : Nat → Nat → Option (List (List Char) × Nat)
  | 0, _ => none
  | fuel + 1, i =>
    match L[i]? with
    | none => some ([], i)
    | some l =>
      if bulletCond2 l then
        match inner2 L fuel (i + 1) with
        | some (fs, j) => some (frag l :: fs, j)
        | none => none
      else some ([], i)

/-- The main loop of `parse_rules.py` (lines 17-71) in fueled, index-driven
form, one fuel unit per iteration of `while i < len(lines)`; `none` means
the fuel ran out.  The inner loop is run with `L.length + 1` fuel, enough
for any run (it advances `i` on every step).  On loop exit the final flush
(lines 74-79) is applied. -/
def loop1 (L : List Line) : Nat → Nat → St1 → Option (List PSection)
  | 0, _, _ => none
  | fuel + 1, i, s =>
    match L[i]? with
    | none => some (s.sections ++ flushList s)
    | some l =>
      match tierOf (pstrip l) with
      | some p => loop1 L fuel (i + 1) ⟨s.sections, s.curSec, some p, s.rules⟩
      | none =>
        if secHdrCond (pstrip l) then
          loop1 L fuel (i + 1)
            ⟨s.sections ++ flushList s, some (secTitle (pstrip l)), s.curPrio,
             if flushCond s then [] else s.rules⟩
        else
          match ruleHeaderMatch (pstrip l) with
          | some nt =>
            match inner1 L (L.length + 1) (i + 1) with
            | none => none
            | some (fs, j) =>
              let src :=
                match L[j]? with
                | some tl =>
                  if hasSubstr "- **Source**:".data tl then srcOf tl else []
                | none => []
              loop1 L fuel (j + 1)
                ⟨s.sections, s.curSec, s.curPrio,
                 s.rules ++ [⟨nt.1, nt.2, descAcc fs, src⟩]⟩
          | none => loop1 L fuel (i + 1) s

/-- The extraction loop of `parse_rules_complete.py` (lines 13-46) in
fueled, index-driven form; `rs` is the `rules` accumulator.  After a rule,
`i` steps past a matched source line but stays on any other terminating
line (the `else: i += 1` belongs to the non-matching case only). -/
def loop2 (L : List Line) : Nat → Nat → List PRule → Option (List PRule)
  | 0, _, _ => none
  | fuel + 1, i, rs =>
    match L[i]? with
    | none => some rs
    | some l =>
      match ruleHeaderMatch (pstrip l) with
      | some nt =>
        match inner2 L (L.length + 1) (i + 1) with
        | none => none
        | some (fs, j) =>
          match L[j]? with
          | some tl =>
            if hasSubstr "**Source**:".data tl then
              loop2 L fuel (j + 1) (rs ++ [⟨nt.1, nt.2, joinSpace fs, srcOf tl⟩])
            else loop2 L fuel j (rs ++ [⟨nt.1, nt.2, joinSpace fs, []⟩])
          | none => loop2 L fuel j (rs ++ [⟨nt.1, nt.2, joinSpace fs, []⟩])
      | none => loop2 L fuel (i + 1) rs

theorem getElem?_some_drop {L : List Line} {i : Nat} {l : Line}
    (h : L[i]? = some l) : L.drop i = l :: L.drop (i + 1) := by
  rcases List.getElem?_eq_some.mp h with ⟨hi, he⟩
  rw [List.drop_eq_getElem_cons hi, he]

theorem getElem?_none_drop {L : List Line} {i : Nat}
    (h : L[i]? = none) : L.drop i = [] :=
  List.drop_eq_nil_of_le (List.getElem?_eq_none_iff.mp h)

theorem dropWhile_eq_drop (L : List Line) (p : Line → Bool) (i : Nat) :
    (L.drop i).dropWhile p = L.drop (i + (List.takeWhile p (L.drop i)).length) := by
  have h1 : List.drop (List.takeWhile p (L.drop i)).length
      (List.takeWhile p (L.drop i) ++ List.dropWhile p (L.drop i)) =
      List.dropWhile p (L.drop i) :=
    List.drop_left _ _
  rw [List.takeWhile_append_dropWhile] at h1
  rw [← h1, List.drop_drop]

theorem inner1_eq (L : List Line) : ∀ fuel i, L.length - i < fuel →
    inner1 L fuel i =
      some (((L.drop i).takeWhile bulletCond1).map frag,
            i + ((L.drop i).takeWhile bulletCond1).length) := by
  intro fuel
  induction fuel with
  | zero => intro i h; omega
  | succ fuel ih =>
    intro i h
    match hL : L[i]? with
    | none =>
      have hd := getElem?_none_drop hL
      simp [inner1, hL, hd]
    | some l =>
      have hi : i < L.length := by
        rcases List.getElem?_eq_some.mp hL with ⟨hh, _⟩
        exact hh
      have hdrop := getElem?_some_drop hL
      by_cases hb : bulletCond1 l
      · have ih' := ih (i + 1) (by omega)
        simp [inner1, hL, hb, hdrop, ih', List.takeWhile_cons]
        omega
      · simp [inner1, hL, hb, hdrop, List.takeWhile_cons]

theorem inner2_eq (L : List Line) : ∀ fuel i, L.length - i < fuel →
    inner2 L fuel i =
      some (((L.drop i).takeWhile bulletCond2).map frag,
            i + ((L.drop i).takeWhile bulletCond2).length) := by
  intro fuel
  induction fuel with
  | zero => intro i h; omega
  | succ fuel ih =>
    intro i h
    match hL : L[i]? with
    | none =>
      have hd := getElem?_none_drop hL
      simp [inner2, hL, hd]
    | some l =>
      have hi : i < L.length := by
        rcases List.getElem?_eq_some.mp hL with ⟨hh, _⟩
        exact hh
      have hdrop := getElem?_some_drop hL
      by_cases hb : bulletCond2 l
      · have ih' := ih (i + 1) (by omega)
        simp [inner2, hL, hb, hdrop, ih', List.takeWhile_cons]
        omega
      · simp [inner2, hL, hb, hdrop, List.takeWhile_cons]


/-- Step equation: end of input (`parse_rules.py` lines 74-79). -/
theorem scan1_nil (s : St1) : scan1 s [] = s.sections ++ flushList s := by
  simp [scan1]

/-- Step equation: priority-tier header line (`parse_rules.py` lines
21-28). -/
theorem scan1_tier {l : Line} {p : List Char} (s : St1) (rest : List Line)
    (ht : tierOf (pstrip l) = some p) :
    scan1 s (l :: rest) = scan1 ⟨s.sections, s.curSec, some p, s.rules⟩ rest := by
  simp [scan1, ht]

/-- Step equation: section header line (`parse_rules.py` lines 31-39). -/
theorem scan1_sec {l : Line} (s : St1) (rest : List Line)
    (ht : tierOf (pstrip l) = none) (hsec : secHdrCond (pstrip l) = true) :
    scan1 s (l :: rest) =
      scan1 ⟨s.sections ++ flushList s, some (secTitle (pstrip l)), s.curPrio,
             if flushCond s then [] else s.rules⟩ rest := by
  simp [scan1, ht, hsec]

/-- Step equation: a line matching no pattern (`parse_rules.py` line 71
only). -/
theorem scan1_skip {l : Line} (s : St1) (rest : List Line)
    (ht : tierOf (pstrip l) = none) (hsec : secHdrCond (pstrip l) = false)
    (hr : ruleHeaderMatch (pstrip l) = none) :
    scan1 s (l :: rest) = scan1 s rest := by
  simp [scan1, ht, hsec, hr]

/-- Step equation: rule header whose description run reaches end of input
(`parse_rules.py` lines 42-69; the source check finds `i == len(lines)`). -/
theorem scan1_rule_nil {l : Line} {nt : Nat × List Char}
    {fs : List (List Char)} (s : St1) (rest : List Line)
    (ht : tierOf (pstrip l) = none) (hsec : secHdrCond (pstrip l) = false)
    (hr : ruleHeaderMatch (pstrip l) = some nt)
    (hc : consume1 rest = (fs, [])) :
    scan1 s (l :: rest) =
      scan1 ⟨s.sections, s.curSec, s.curPrio,
             s.rules ++ [⟨nt.1, nt.2, descAcc fs, []⟩]⟩ [] := by
  simp [scan1, ht, hsec, hr, hc]
  split
  · rfl
  · rename_i r0 hc1 term0 r20 hc2 heq1 heq2
    simp [hc] at heq1

/-- Step equation: rule header whose description run is stopped by a
terminating line (`parse_rules.py` lines 42-69); the terminating line
supplies the source if it contains `- **Source**:` and is then stepped past
by the outer `i += 1`. -/
theorem scan1_rule_cons {l : Line} {nt : Nat × List Char}
    {fs : List (List Char)} {term : Line} {r2 : List Line}
    (s : St1) (rest : List Line)
    (ht : tierOf (pstrip l) = none) (hsec : secHdrCond (pstrip l) = false)
    (hr : ruleHeaderMatch (pstrip l) = some nt)
    (hc : consume1 rest = (fs, term :: r2)) :
    scan1 s (l :: rest) =
      scan1 ⟨s.sections, s.curSec, s.curPrio,
             s.rules ++ [⟨nt.1, nt.2, descAcc fs,
               if hasSubstr "- **Source**:".data term then srcOf term
               else []⟩]⟩ r2 := by
  simp [scan1, ht, hsec, hr, hc]
  split
  · rename_i r0 hc1 hc2 heq1 heq2
    simp [hc] at heq1
  · rename_i r0 hc1 term0 r20 hc2 heq1 heq2
    rw [hc] at heq1
    simp only [] at heq1
    simp at heq1
    obtain ⟨h1, h2⟩ := heq1
    subst h1
    subst h2
    rfl

/-- Step equation for the complete variant: non-matching line
(`parse_rules_complete.py` lines 45-46). -/
theorem rules2_skip {l : Line} (rest : List Line)
    (hr : ruleHeaderMatch (pstrip l) = none) :
    rules2 (l :: rest) = rules2 rest := by
  simp [rules2, hr]

/-- Step equation for the complete variant: rule header whose description
run reaches end of input. -/
theorem rules2_rule_nil {l : Line} {nt : Nat × List Char}
    {fs : List (List Char)} (rest : List Line)
    (hr : ruleHeaderMatch (pstrip l) = some nt)
    (hc : consume2 rest = (fs, [])) :
    rules2 (l :: rest) = [⟨nt.1, nt.2, joinSpace fs, []⟩] := by
  conv_lhs => rw [rules2.eq_def]
  simp only [hr]
  split
  · simp [hc]
  · rename_i r0 hc1 term0 r20 hc2 heq1 heq2
    simp [hc] at heq1

/-- Step equation for the complete variant: rule header whose description
run is stopped by a terminating line; only a line containing `**Source**:`
is stepped past, any other terminating line is reprocessed. -/
theorem rules2_rule_cons {l : Line} {nt : Nat × List Char}
    {fs : List (List Char)} {term : Line} {r2 : List Line} (rest : List Line)
    (hr : ruleHeaderMatch (pstrip l) = some nt)
    (hc : consume2 rest = (fs, term :: r2)) :
    rules2 (l :: rest) =
      (if hasSubstr "**Source**:".data term then
        ⟨nt.1, nt.2, joinSpace fs, srcOf term⟩ :: rules2 r2
      else ⟨nt.1, nt.2, joinSpace fs, []⟩ :: rules2 (term :: r2)) := by
  conv_lhs => rw [rules2.eq_def]
  simp only [hr]
  split
  · rename_i r0 hc1 hc2 heq1 heq2
    simp [hc] at heq1
  · rename_i r0 hc1 term0 r20 hc2 heq1 heq2
    rw [hc] at heq1
    simp at heq1
    obtain ⟨h1, h2⟩ := heq1
    subst h1
    subst h2
    simp [hc]

theorem loop1_eq (L : List Line) : ∀ fuel i s, L.length - i < fuel →
    loop1 L fuel i s = some (scan1 s (L.drop i)) := by
  intro fuel
  induction fuel with
  | zero => intro i s h; omega
  | succ fuel ih =>
    intro i s h
    match hL : L[i]? with
    | none =>
      have hd := getElem?_none_drop hL
      rw [hd, scan1_nil]
      simp [loop1, hL]
    | some l =>
      have hi : i < L.length := by
        rcases List.getElem?_eq_some.mp hL with ⟨hh, _⟩
        exact hh
      have hdrop := getElem?_some_drop hL
      rw [hdrop]
      match ht : tierOf (pstrip l) with
      | some p =>
        rw [scan1_tier _ _ ht, ← ih (i + 1) _ (by omega)]
        simp [loop1, hL, ht]
      | none =>
        by_cases hsec : secHdrCond (pstrip l)
        · rw [scan1_sec _ _ ht hsec, ← ih (i + 1) _ (by omega)]
          simp [loop1, hL, ht, hsec]
        · match hr : ruleHeaderMatch (pstrip l) with
          | some nt =>
            have hin := inner1_eq L (L.length + 1) (i + 1) (by omega)
            have hcon : consume1 (L.drop (i + 1)) =
                (((L.drop (i + 1)).takeWhile bulletCond1).map frag,
                 L.drop (i + 1 + ((L.drop (i + 1)).takeWhile bulletCond1).length)) := by
              rw [consume1_eq, dropWhile_eq_drop]
            match hD : L[i + 1 + ((L.drop (i + 1)).takeWhile bulletCond1).length]? with
            | none =>
              have hd2 := getElem?_none_drop hD
              have hc0 : consume1 (L.drop (i + 1)) =
                  (((L.drop (i + 1)).takeWhile bulletCond1).map frag, []) := by
                rw [hcon, hd2]
              rw [scan1_rule_nil s _ ht (by simpa using hsec) hr hc0]
              have ih' := ih (i + 1 + ((L.drop (i + 1)).takeWhile bulletCond1).length + 1)
                ⟨s.sections, s.curSec, s.curPrio,
                 s.rules ++ [⟨nt.1, nt.2,
                   descAcc (((L.drop (i + 1)).takeWhile bulletCond1).map frag), []⟩]⟩
                (by omega)
              have hd3 : List.drop
                  (i + 1 + ((L.drop (i + 1)).takeWhile bulletCond1).length + 1) L = [] :=
                List.drop_eq_nil_of_le
                  (by have := List.getElem?_eq_none_iff.mp hD; omega)
              rw [hd3] at ih'
              rw [← ih']
              simp [loop1, hL, ht, hsec, hr, hin, hD]
            | some term =>
              have hd2 := getElem?_some_drop hD
              have hc0 : consume1 (L.drop (i + 1)) =
                  (((L.drop (i + 1)).takeWhile bulletCond1).map frag,
                   term :: L.drop
                     (i + 1 + ((L.drop (i + 1)).takeWhile bulletCond1).length + 1)) := by
                rw [hcon, hd2]
              rw [scan1_rule_cons s _ ht (by simpa using hsec) hr hc0]
              have ih' := ih (i + 1 + ((L.drop (i + 1)).takeWhile bulletCond1).length + 1)
                ⟨s.sections, s.curSec, s.curPrio,
                 s.rules ++ [⟨nt.1, nt.2,
                   descAcc (((L.drop (i + 1)).takeWhile bulletCond1).map frag),
                   if hasSubstr "- **Source**:".data term then srcOf term else []⟩]⟩
                (by omega)
              rw [← ih']
              simp [loop1, hL, ht, hsec, hr, hin, hD]
          | none =>
            rw [scan1_skip _ _ ht (by simpa using hsec) hr, ← ih (i + 1) s (by omega)]
            simp [loop1, hL, ht, hsec, hr]

theorem loop2_eq (L : List Line) : ∀ fuel i rs, L.length - i < fuel →
    loop2 L fuel i rs = some (rs ++ rules2 (L.drop i)) := by
  intro fuel
  induction fuel with
  | zero => intro i rs h; omega
  | succ fuel ih =>
    intro i rs h
    match hL : L[i]? with
    | none =>
      have hd := getElem?_none_drop hL
      simp [loop2, hL, hd, rules2]
    | some l =>
      have hi : i < L.length := by
        rcases List.getElem?_eq_some.mp hL with ⟨hh, _⟩
        exact hh
      have hdrop := getElem?_some_drop hL
      rw [hdrop]
      match hr : ruleHeaderMatch (pstrip l) with
      | none =>
        rw [rules2_skip _ hr, ← ih (i + 1) rs (by omega)]
        simp [loop2, hL, hr]
      | some nt =>
        have hin := inner2_eq L (L.length + 1) (i + 1) (by omega)
        have hcon : consume2 (L.drop (i + 1)) =
            (((L.drop (i + 1)).takeWhile bulletCond2).map frag,
             L.drop (i + 1 + ((L.drop (i + 1)).takeWhile bulletCond2).length)) := by
          rw [consume2_eq, dropWhile_eq_drop]
        match hD : L[i + 1 + ((L.drop (i + 1)).takeWhile bulletCond2).length]? with
        | none =>
          have hd2 := getElem?_none_drop hD
          have hc0 : consume2 (L.drop (i + 1)) =
              (((L.drop (i + 1)).takeWhile bulletCond2).map frag, []) := by
            rw [hcon, hd2]
          rw [rules2_rule_nil _ hr hc0]
          have ih' := ih (i + 1 + ((L.drop (i + 1)).takeWhile bulletCond2).length)
            (rs ++ [⟨nt.1, nt.2,
              joinSpace (((L.drop (i + 1)).takeWhile bulletCond2).map frag), []⟩])
            (by omega)
          rw [hd2] at ih'
          have hred : loop2 L (fuel + 1) i rs =
              loop2 L fuel (i + 1 + ((L.drop (i + 1)).takeWhile bulletCond2).length)
                (rs ++ [⟨nt.1, nt.2,
                  joinSpace (((L.drop (i + 1)).takeWhile bulletCond2).map frag), []⟩]) := by
            simp [loop2, hL, hr, hin, hD]
          rw [hred, ih']
          simp [rules2]
        | some term =>
          have hd2 := getElem?_some_drop hD
          have hc0 : consume2 (L.drop (i + 1)) =
              (((L.drop (i + 1)).takeWhile bulletCond2).map frag,
               term :: L.drop
                 (i + 1 + ((L.drop (i + 1)).takeWhile bulletCond2).length + 1)) := by
            rw [hcon, hd2]
          rw [rules2_rule_cons _ hr hc0]
          by_cases hsrc : hasSubstr "**Source**:".data term
          · have ih' := ih
              (i + 1 + ((L.drop (i + 1)).takeWhile bulletCond2).length + 1)
              (rs ++ [⟨nt.1, nt.2,
                joinSpace (((L.drop (i + 1)).takeWhile bulletCond2).map frag),
                srcOf term⟩])
              (by omega)
            have hred : loop2 L (fuel + 1) i rs =
                loop2 L fuel
                  (i + 1 + ((L.drop (i + 1)).takeWhile bulletCond2).length + 1)
                  (rs ++ [⟨nt.1, nt.2,
                    joinSpace (((L.drop (i + 1)).takeWhile bulletCond2).map frag),
                    srcOf term⟩]) := by
              simp [loop2, hL, hr, hin, hD, hsrc]
            rw [hred, ih']
            simp [hsrc]
          · have ih' := ih
              (i + 1 + ((L.drop (i + 1)).takeWhile bulletCond2).length)
              (rs ++ [⟨nt.1, nt.2,
                joinSpace (((L.drop (i + 1)).takeWhile bulletCond2).map frag), []⟩])
              (by omega)
            rw [hd2] at ih'
            have hred : loop2 L (fuel + 1) i rs =
                loop2 L fuel
                  (i + 1 + ((L.drop (i + 1)).takeWhile bulletCond2).length)
                  (rs ++ [⟨nt.1, nt.2,
                    joinSpace (((L.drop (i + 1)).takeWhile bulletCond2).map frag),
                    []⟩]) := by
              simp [loop2, hL, hr, hin, hD, hsrc]
            rw [hred, ih']
            simp [hsrc]

/-- Quote escaping applied to each rule field before emission
(`parse_rules.py` lines 109-111, `parse_rules_complete.py` lines 168-170):
`.replace('"', '\\"').replace("'", "\\'")`. -/
def fieldEsc (f : List Char) : List Char :=
  replaceAll "'".data "\\'".data (replaceAll "\"".data "\\\"".data f)

/-- Python string interpolation of `current_priority`, which renders `None`
as the text `None`. -/
def pyOptStr : Option (List Char) → List Char
  | none => "None".data
  | some t => t

/-- The six lines emitted for one rule (`parse_rules.py` lines 113-119,
`parse_rules_complete.py` lines 172-178). -/
def ruleLines (r : PRule) : List Line :=
  [ "            \x7b".data,
    "                number: ".data ++ natChars r.number ++ ",".data,
    "                title: \"".data ++ fieldEsc r.title ++ "\",".data,
    "                description: \"".data ++ fieldEsc r.description ++ "\",".data,
    "                source: \"".data ++ fieldEsc r.source ++ "\"".data,
    "            \x7d,".data ]

/-- The four opening lines of a section block (`parse_rules.py` lines
102-106, `parse_rules_complete.py` lines 161-165); the section title and
priority are interpolated raw, without escaping. -/
def secHeadLines (title prio : List Char) : List Line :=
  [ "    \x7b".data,
    "        title: \"".data ++ title ++ "\",".data,
    "        priority: \"".data ++ prio ++ "\",".data,
    "        rules: [".data ]

/-- The two closing lines of a section block (`parse_rules.py` lines
121-123, `parse_rules_complete.py` lines 179-181). -/
def secCloseLines : List Line :=
  [ "        ]".data, "    \x7d,".data ]

/-- All lines emitted for one section of the header-driven variant. -/
def sectionLines (s : PSection) : List Line :=
  secHeadLines s.title (pyOptStr s.priority) ++
    (s.rules.map ruleLines).flatten ++ secCloseLines

/-- All lines emitted for one section of the complete variant. -/
def gsectionLines (s : GSection) : List Line :=
  secHeadLines s.title s.priority ++ (s.rules.map ruleLines).flatten ++ secCloseLines

/-- The fixed header block of `parse_rules.py` (lines 82-99). -/
def header1 : List Line :=
  [ "// Procurement Rules Content - Parsed from procurement_rules_comprehensive.md".data,
    "// This file contains ALL 190 procurement rules".data,
    "".data,
    "export interface ProcurementRule \x7b".data,
    "    number: number;".data,
    "    title: string;".data,
    "    description: string;".data,
    "    source: string;".data,
    "\x7d".data,
    "".data,
    "export interface ProcurementSection \x7b".data,
    "    title: string;".data,
    "    priority: 'critical' | 'high' | 'important' | 'info';".data,
    "    rules: ProcurementRule[];".data,
    "\x7d".data,
    "".data,
    "export const procurementRulesContent: ProcurementSection[] = [".data ]

/-- The fixed header block of `parse_rules_complete.py` (lines 138-157). -/
def header2 : List Line :=
  [ "// Procurement Rules Content - ALL 190 Rules".data,
    "// Generated from procurement_rules_comprehensive.md".data,
    "".data,
    "export interface ProcurementRule \x7b".data,
    "    number: number;".data,
    "    title: string;".data,
    "    description: string;".data,
    "    source: string;".data,
    "\x7d".data,
    "".data,
    "export interface ProcurementSection \x7b".data,
    "    title: string;".data,
    "    priority: 'critical' | 'high' | 'important' | 'info';".data,
    "    rules: ProcurementRule[];".data,
    "    isInfoSection?: boolean;".data,
    "    content?: string;".data,
    "\x7d".data,
    "".data,
    "export const procurementRulesContent: ProcurementSection[] = [".data ]

/-- The fixed trailing block of `parse_rules_complete.py` (lines 184-243):
the two hand-authored info sections and the closing `];`. -/
def tail2 : List Line :=
  [ "    \x7b".data,
    "        title: \"Document Prioritization Methodology\",".data,
    "        priority: \"info\",".data,
    "        isInfoSection: true,".data,
    "        content: `**CRITICAL MANDATORY REQUIREMENTS (Rules 1-46)**".data,
    "".data,
    "Legal/regulatory requirements from Legal Agreement and Procurement Regulations".data,
    "".data,
    "**Violation results in:** misprocurement declaration, contract cancellation, loan suspension/cancellation, financing withdrawal, reputational damage to Borrower and Bank".data,
    "".data,
    "Non-negotiable compliance requirements".data,
    "".data,
    "---".data,
    "".data,
    "**HIGH PRIORITY REQUIREMENTS (Rules 47-100)**".data,
    "".data,
    "Process integrity requirements ensuring fair competition and transparency".data,
    "".data,
    "**Violation results in:** valid complaints from bidders/proposers, process delays, repeat of procurement activities, reputational damage, potential legal challenges".data,
    "".data,
    "Critical for maintaining procurement process credibility".data,
    "".data,
    "---".data,
    "".data,
    "**IMPORTANT OPERATIONAL REQUIREMENTS (Rules 101-190)**".data,
    "".data,
    "Best practice requirements ensuring efficient procurement and value for money".data,
    "".data,
    "**Violation results in:** suboptimal outcomes, reduced value for money, implementation delays, missed opportunities for innovation/sustainability, weaker contract management".data,
    "".data,
    "Essential for procurement excellence and project success`,".data,
    "        rules: []".data,
    "    \x7d,".data,
    "    \x7b".data,
    "        title: \"Notes on Citations\",".data,
    "        priority: \"info\",".data,
    "        isInfoSection: true,".data,
    "        content: `All rules are derived from official World Bank procurement documents:".data,
    "".data,
    "1. **PR2025**: References include Section number, Paragraph number, Annex number (if applicable), and page number".data,
    "2. **EVAL2024**: References include Form number, Section name, Annex number (if applicable), and page number".data,
    "".data,
    "**Abbreviations Used:**".data,
    "- Para = Paragraph".data,
    "- p. = page".data,
    "- SPD = Standard Procurement Document".data,
    "- PPSD = Project Procurement Strategy for Development".data,
    "- VfM = Value for Money".data,
    "- KPI = Key Performance Indicator".data,
    "- SOE = State-Owned Enterprise".data,
    "- SEA/SH = Sexual Exploitation and Abuse/Sexual Harassment".data,
    "- BAFO = Best and Final Offer".data,
    "".data,
    "**Document Availability:**".data,
    "- PR2025 is publicly available at www.worldbank.org/procurement".data,
    "- EVAL2024 templates are available at www.worldbank.org/procurement/standarddocuments`,".data,
    "        rules: []".data,
    "    \x7d,".data,
    "];".data ]

/-- Join lines with a trailing newline after each one; every chunk the
scripts append to the output string ends in a newline, so the emitted text
is exactly this join of its lines. -/
def joinNl (ls : List Line) : List Char :=
  ls.foldr (fun l acc => l ++ '\n' :: acc) []

/-- The full text written by `parse_rules.py` (lines 82-126). -/
def emitDoc1 (secs : List PSection) : List Char :=
  joinNl (header1 ++ (secs.map sectionLines).flatten ++ ["];".data])

/-- The full text written by `parse_rules_complete.py` (lines 138-243). -/
def emitDoc2 (secs : List GSection) : List Char :=
  joinNl (header2 ++ (secs.map gsectionLines).flatten ++ tail2)

/-- JavaScript escape decoding for a backslash-escaped character inside a
double-quoted string literal: recognized escapes produce their control
character, any other escaped character (including `"` `'` `\`) produces the
character itself. -/
def unescCh (c : Char) : Char :=
  if c = 'n' then '\n'
  else if c = 't' then '\t'
  else if c = 'r' then '\r'
  else if c = 'b' then Char.ofNat 8
  else if c = 'f' then Char.ofNat 12
  else if c = 'v' then Char.ofNat 11
  else if c = '0' then Char.ofNat 0
  else c

/-- Parser for the body of a JavaScript/TypeScript double-quoted string
literal, given the characters after the opening quote: returns the decoded
content and the characters after the closing quote, or `none` when the
literal is unterminated or contains a raw newline (both syntax errors). -/
def litParse : List Char → Option (List Char × List Char)
  | [] => none
  | '"' :: rest => some ([], rest)
  | ['\\'] => none
  | '\\' :: c :: rest =>
    (litParse rest).map (fun p => (unescCh c :: p.1, p.2))
  | c :: rest =>
    if c = '\n' then none
    else (litParse rest).map (fun p => (c :: p.1, p.2))

/-- The fixed prefix of every emitted rule-number line: sixteen spaces and
`number: `. -/
def numPre : List Char := "                number: ".data

/-- Structural extraction of a rule-number field from one line of the
emitted module: exactly the lines `                number: <digits>,`
carry a number. -/
def parseNumLine (l : Line) : Option Nat :=
  if startswith numPre l then
    let r := l.drop numPre.length
    let ds := r.takeWhile isDigitCh
    if ds.isEmpty then none
    else if r.drop ds.length = [','] then some (digitsVal ds) else none
  else none

/-- Re-extraction of the sequence of rule numbers from the emitted text:
split into lines and read every rule-number line, in order. -/
def numExtract (s : List Char) : List Nat :=
  (splitNl s).filterMap parseNumLine

/-- The rule numbers of a Document of the header-driven variant, in
order. -/
def docNums1 (secs : List PSection) : List Nat :=
  (secs.map (fun sec => sec.rules.map (fun r => r.number))).flatten

/-- The rule numbers of a Document of the complete variant, in order. -/
def docNums2 (secs : List GSection) : List Nat :=
  (secs.map (fun sec => sec.rules.map (fun r => r.number))).flatten

theorem startswith_append_self (p x : List Char) :
    startswith p (p ++ x) = true := by
  induction p with
  | nil => simp [startswith]
  | cons c cs ih => simp [startswith, ih]

theorem startswith_extend {p s : List Char} (x : List Char)
    (h : startswith p s = true) : startswith p (s ++ x) = true := by
  induction s generalizing p with
  | nil =>
    cases p with
    | nil => simp [startswith]
    | cons c cs => simp [startswith] at h
  | cons c cs ih =>
    cases p with
    | nil => simp [startswith]
    | cons b bs =>
      simp [startswith] at h ⊢
      exact ⟨h.1, ih h.2⟩

theorem hasSubstr_of_startswith {p s : List Char}
    (h : startswith p s = true) : hasSubstr p s = true := by
  cases s with
  | nil =>
    cases p with
    | nil => simp [hasSubstr, startswith]
    | cons c cs => simp [startswith] at h
  | cons c cs => simp [hasSubstr, h]

theorem hasSubstr_cons_of {p : List Char} {c : Char} {t : List Char}
    (h : hasSubstr p t = true) : hasSubstr p (c :: t) = true := by
  simp [hasSubstr, h]

theorem hasSubstr_nil_pat (x : List Char) : hasSubstr [] x = true := by
  cases x with
  | nil => simp [hasSubstr, startswith]
  | cons c cs => simp [hasSubstr, startswith]

theorem hasSubstr_extend {p s : List Char} (x : List Char)
    (h : hasSubstr p s = true) : hasSubstr p (s ++ x) = true := by
  induction s with
  | nil =>
    cases p with
    | nil => simp [hasSubstr_nil_pat]
    | cons c cs => simp [hasSubstr, startswith] at h
  | cons c cs ih =>
    simp [hasSubstr] at h
    rcases h with h | h
    · have := startswith_extend x h
      simp [hasSubstr]
      exact Or.inl (by simpa using this)
    · simp [hasSubstr, ih h]

theorem startswith_of_append {p s x : List Char}
    (h : startswith p (s ++ x) = true) :
    startswith (p.take s.length) s = true := by
  induction s generalizing p with
  | nil => simp [startswith]
  | cons c cs ih =>
    cases p with
    | nil => simp [startswith]
    | cons b bs =>
      simp [startswith] at h ⊢
      exact ⟨h.1, ih h.2⟩

theorem replaceAll_not_occur {pat rep l : List Char}
    (h : hasSubstr pat l = false) : replaceAll pat rep l = l := by
  induction l with
  | nil => rfl
  | cons c cs ih =>
    simp [hasSubstr] at h
    rw [replaceAll_cons]
    rw [if_neg]
    · rw [ih h.2]
    · intro hcon
      rw [h.1] at hcon
      simp at hcon

theorem replaceAll_head {pat rep l : List Char} (hne : pat ≠ [])
    (hl : hasSubstr pat l = false) :
    replaceAll pat rep (pat ++ l) = rep ++ l := by
  match pat, hne with
  | p0 :: ps, _ =>
    rw [show (p0 :: ps) ++ l = p0 :: (ps ++ l) by simp, replaceAll_cons]
    rw [if_pos]
    · rw [List.length_cons, Nat.add_sub_cancel, List.drop_left ps l,
        replaceAll_not_occur hl]
    · exact ⟨by simp, by simpa using startswith_append_self (p0 :: ps) l⟩

theorem lstrip_cons_no {c : Char} {t : List Char} (hc : isSpaceCh c = false) :
    lstrip (c :: t) = c :: t := by
  simp [lstrip, List.dropWhile_cons, hc]

theorem rstrip_append_last {x y : List Char} {x' : List Char} {c : Char}
    (hx : x = x' ++ [c]) (hc : isSpaceCh c = false) :
    rstrip (x ++ y) = x ++ rstrip y := by
  subst hx
  simp only [rstrip, List.reverse_append]
  rw [List.dropWhile_append]
  by_cases hy : (y.reverse.dropWhile isSpaceCh).isEmpty
  · simp only [hy, if_pos]
    have : (y.reverse.dropWhile isSpaceCh) = [] := by
      simpa using hy
    simp [this, List.reverse_append, List.dropWhile_cons, hc]
  · simp only [hy, if_neg]
    simp [List.reverse_append]

theorem rstrip_decomp (s : List Char) :
    s = rstrip s ++ (s.reverse.takeWhile isSpaceCh).reverse := by
  have h2 := congrArg List.reverse (List.takeWhile_append_dropWhile isSpaceCh s.reverse)
  rw [List.reverse_append, List.reverse_reverse] at h2
  simpa [rstrip] using h2.symm

theorem rstrip_all_space (s : List Char) :
    ∀ c ∈ (s.reverse.takeWhile isSpaceCh).reverse, isSpaceCh c = true := by
  intro c hc
  rw [List.mem_reverse] at hc
  exact List.mem_takeWhile_imp hc

theorem rstrip_rstrip (s : List Char) : rstrip (rstrip s) = rstrip s := by
  simp [rstrip, List.dropWhile_idempotent]

theorem pstrip_rstrip (s : List Char) : pstrip (rstrip s) = pstrip s := by
  simp [pstrip, rstrip_rstrip]

theorem takeWhile_append_stop {α : Type} {p : α → Bool} {a : List α} {b : α}
    (t : List α) (ha : ∀ c ∈ a, p c = true) (hb : p b = false) :
    (a ++ b :: t).takeWhile p = a ∧ (a ++ b :: t).dropWhile p = b :: t := by
  induction a with
  | nil => simp [List.takeWhile_cons, List.dropWhile_cons, hb]
  | cons c cs ih =>
    have hc : p c = true := ha c (by simp)
    have ih' := ih (fun d hd => ha d (by simp [hd]))
    simp [List.takeWhile_cons, List.dropWhile_cons, hc, ih'.1, ih'.2]

theorem pstrip_cons_last {c d : Char} (m : List Char)
    (hc : isSpaceCh c = false) (hd : isSpaceCh d = false) :
    pstrip (c :: m ++ [d]) = c :: m ++ [d] := by
  have h1 : rstrip ((c :: m ++ [d]) ++ []) = (c :: m ++ [d]) ++ rstrip [] :=
    rstrip_append_last (show c :: m ++ [d] = (c :: m) ++ [d] by simp) hd
  have h2 : rstrip (c :: m ++ [d]) = c :: m ++ [d] := by
    simpa [rstrip] using h1
  have h3 : lstrip (c :: (m ++ [d])) = c :: (m ++ [d]) := lstrip_cons_no hc
  simp only [pstrip, h2]
  simpa using h3

theorem hasSubstr_rstrip_false {pat s : List Char}
    (h : hasSubstr pat s = false) : hasSubstr pat (rstrip s) = false := by
  by_contra hcon
  rw [Bool.not_eq_false] at hcon
  have := hasSubstr_extend (s.reverse.takeWhile isSpaceCh).reverse hcon
  rw [← rstrip_decomp s] at this
  rw [h] at this
  cases this

theorem srcOf_marker (src : List Char)
    (h : hasSubstr "- **Source**:".data src = false) :
    srcOf ("- **Source**:".data ++ src) = pstrip src := by
  have h1 : rstrip ("- **Source**:".data ++ src) =
      "- **Source**:".data ++ rstrip src :=
    rstrip_append_last
      (show "- **Source**:".data = "- **Source**".data ++ [':'] by decide)
      (by decide)
  have h2 : pstrip ("- **Source**:".data ++ src) =
      "- **Source**:".data ++ rstrip src := by
    simp only [pstrip, h1]
    have h3 : lstrip ('-' :: (" **Source**:".data ++ rstrip src)) =
        '-' :: (" **Source**:".data ++ rstrip src) := lstrip_cons_no (by decide)
    simpa using h3
  have h4 : replaceAll "- **Source**:".data []
      ("- **Source**:".data ++ rstrip src) = rstrip src := by
    have := @replaceAll_head "- **Source**:".data [] (rstrip src)
      (by decide) (hasSubstr_rstrip_false h)
    simpa using this
  simp only [srcOf, h2, h4, pstrip_rstrip]

theorem ruleHeaderMatch_shape (ds T' : List Char) (t0 : Char)
    (hds : ds ≠ []) (hdig : ∀ c ∈ ds, isDigitCh c = true)
    (ht0 : isSpaceCh t0 = false) :
    ruleHeaderMatch ('*' :: '*' :: (ds ++ '.' :: (' ' :: t0 :: T' ++ ['*', '*'])))
      = some (digitsVal ds, t0 :: T') := by
  have htd := takeWhile_append_stop (' ' :: t0 :: T' ++ ['*', '*']) hdig
    (show isDigitCh '.' = false by decide)
  have hsp : isSpaceCh ' ' = true := by decide
  have hw : (' ' :: t0 :: T' ++ ['*', '*']).takeWhile isSpaceCh =
      ' ' :: (t0 :: T' ++ ['*', '*']).takeWhile isSpaceCh := by
    simp [List.takeWhile_cons, hsp]
  have hw2 : (t0 :: T' ++ ['*', '*']).takeWhile isSpaceCh = [] := by
    simp [List.takeWhile_cons, ht0]
  have hbody : (' ' :: t0 :: T' ++ ['*', '*']).dropWhile isSpaceCh =
      t0 :: T' ++ ['*', '*'] := by
    simp [List.dropWhile_cons, ht0, hsp]
  have hend : endswith "**".data (' ' :: t0 :: T' ++ ['*', '*']) = true := by
    have : (' ' :: t0 :: T' ++ ['*', '*']).reverse =
        '*' :: '*' :: (t0 :: T').reverse ++ [' '] := by
      simp
    simp [endswith, this, startswith]
  have hlen : (t0 :: T' ++ ['*', '*']).length = T'.length + 3 := by
    simp
  have htake : (t0 :: T' ++ ['*', '*']).take ((t0 :: T' ++ ['*', '*']).length - 2) =
      t0 :: T' := by
    rw [hlen]
    have : T'.length + 3 - 2 = (t0 :: T').length := by simp
    rw [this, show t0 :: T' ++ ['*', '*'] = (t0 :: T') ++ ['*', '*'] by simp,
      List.take_left]
  simp only [ruleHeaderMatch, htd.1, htd.2, hw, hw2, hbody, hend, hlen, htake]
  simp [hds, hend, hbody, htake, hlen]

/-- Helper for relating the two description assemblies: the tail of a
space-join. -/
def sepJoin : List (List Char) → List Char
  | [] => []
  | f :: fs => ' ' :: (f ++ sepJoin fs)

theorem joinSpace_eq_sep (f : List Char) (fs : List (List Char)) :
    joinSpace (f :: fs) = f ++ sepJoin fs := by
  induction fs generalizing f with
  | nil => simp [joinSpace, sepJoin]
  | cons f1 fs' ih => simp [joinSpace, sepJoin, ih f1]

theorem descAcc_go_ne (fs : List (List Char)) :
    ∀ acc, acc ≠ [] →
      fs.foldl (fun acc f => if acc.isEmpty then f else acc ++ ' ' :: f) acc =
        acc ++ sepJoin fs := by
  induction fs with
  | nil => intro acc hacc; simp [sepJoin]
  | cons f fs' ih =>
    intro acc hacc
    have hae : acc.isEmpty = false := by simpa using hacc
    have hne : (acc ++ ' ' :: f) ≠ [] := by simp
    simp only [List.foldl_cons, hae, Bool.false_eq_true, if_false]
    rw [ih (acc ++ ' ' :: f) hne]
    simp [sepJoin]

/-- When the first fragment is nonempty the header-driven accumulation
agrees with the space-join. -/
theorem descAcc_eq_joinSpace {f : List Char} (fs : List (List Char))
    (hf : f ≠ []) : descAcc (f :: fs) = joinSpace (f :: fs) := by
  simp only [descAcc, List.foldl_cons, List.isEmpty_nil, if_pos]
  rw [descAcc_go_ne fs f hf, joinSpace_eq_sep]

theorem consume1_run {bs : List Line} {term : Line} (rest : List Line)
    (hb : ∀ b ∈ bs, bulletCond1 b = true) (ht : bulletCond1 term = false) :
    consume1 (bs ++ term :: rest) = (bs.map frag, term :: rest) := by
  have h := takeWhile_append_stop rest hb ht
  rw [consume1_eq, h.1, h.2]

theorem consume2_run {bs : List Line} {term : Line} (rest : List Line)
    (hb : ∀ b ∈ bs, bulletCond2 b = true) (ht : bulletCond2 term = false) :
    consume2 (bs ++ term :: rest) = (bs.map frag, term :: rest) := by
  have h := takeWhile_append_stop rest hb ht
  rw [consume2_eq, h.1, h.2]

theorem consume1_all {bs : List Line}
    (hb : ∀ b ∈ bs, bulletCond1 b = true) :
    consume1 bs = (bs.map frag, []) := by
  rw [consume1_eq, List.takeWhile_eq_self_iff.mpr hb,
    List.dropWhile_eq_nil_iff.mpr (fun x hx => by simp [hb x hx])]

theorem consume2_all {bs : List Line}
    (hb : ∀ b ∈ bs, bulletCond2 b = true) :
    consume2 bs = (bs.map frag, []) := by
  rw [consume2_eq, List.takeWhile_eq_self_iff.mpr hb,
    List.dropWhile_eq_nil_iff.mpr (fun x hx => by simp [hb x hx])]

theorem startswith_eq_append {p s : List Char} (h : startswith p s = true) :
    ∃ r, s = p ++ r := by
  induction p generalizing s with
  | nil => exact ⟨s, rfl⟩
  | cons c cs ih =>
    cases s with
    | nil => simp [startswith] at h
    | cons b bs =>
      simp [startswith] at h
      obtain ⟨r, hr⟩ := ih h.2
      exact ⟨r, by simp [h.1, hr]⟩

theorem startswith_false_of_front {p s : List Char} (x : List Char)
    (h : startswith (p.take s.length) s = false) :
    startswith p (s ++ x) = false := by
  by_contra hcon
  rw [Bool.not_eq_false] at hcon
  rw [startswith_of_append hcon] at h
  cases h

theorem pstrip_marker_append (src : List Char) :
    pstrip ("- **Source**:".data ++ src) =
      "- **Source**:".data ++ rstrip src := by
  have h1 : rstrip ("- **Source**:".data ++ src) =
      "- **Source**:".data ++ rstrip src :=
    rstrip_append_last
      (show "- **Source**:".data = "- **Source**".data ++ [':'] by decide)
      (by decide)
  simp only [pstrip, h1]
  have h3 : lstrip ('-' :: (" **Source**:".data ++ rstrip src)) =
      '-' :: (" **Source**:".data ++ rstrip src) := lstrip_cons_no (by decide)
  simpa using h3

theorem bulletCond1_srcline (src : List Char) :
    bulletCond1 ("- **Source**:".data ++ src) = false := by
  have h2 : startswith "- **Source".data
      ("- **Source**:".data ++ rstrip src) = true := by
    rw [show "- **Source**:".data ++ rstrip src =
      "- **Source".data ++ ("**:".data ++ rstrip src) from rfl]
    exact startswith_append_self _ _
  unfold bulletCond1
  rw [pstrip_marker_append, h2]
  simp

theorem bulletCond2_srcline (src : List Char) :
    bulletCond2 ("- **Source**:".data ++ src) = false := by
  have h2 : hasSubstr "**Source**".data ("- **Source**:".data ++ src) = true := by
    rw [show "- **Source**:".data ++ src =
      '-' :: ' ' :: ("**Source**".data ++ (':' :: src)) from rfl]
    exact hasSubstr_cons_of (hasSubstr_cons_of
      (hasSubstr_of_startswith (startswith_append_self _ _)))
  unfold bulletCond2
  rw [h2]
  simp

theorem hasSubstr_m1_srcline (src : List Char) :
    hasSubstr "- **Source**:".data ("- **Source**:".data ++ src) = true :=
  hasSubstr_of_startswith (startswith_append_self _ _)

theorem hasSubstr_m2_srcline (src : List Char) :
    hasSubstr "**Source**:".data ("- **Source**:".data ++ src) = true := by
  rw [show "- **Source**:".data ++ src =
    '-' :: ' ' :: ("**Source**:".data ++ src) from rfl]
  exact hasSubstr_cons_of (hasSubstr_cons_of
    (hasSubstr_of_startswith (startswith_append_self _ _)))

theorem tierOf_of_secHdr {ls : List Char}
    (h : startswith "### **".data ls = true) : tierOf ls = none := by
  obtain ⟨r, rfl⟩ := startswith_eq_append h
  unfold tierOf
  rw [startswith_false_of_front r (by decide),
    startswith_false_of_front r (by decide),
    startswith_false_of_front r (by decide),
    startswith_false_of_front r (by decide)]
  simp

theorem tierOf_star (t : List Char) : tierOf ('*' :: t) = none := by
  have : ('*' :: t) = ['*'] ++ t := rfl
  rw [this]
  unfold tierOf
  rw [startswith_false_of_front t (by decide),
    startswith_false_of_front t (by decide),
    startswith_false_of_front t (by decide),
    startswith_false_of_front t (by decide)]
  simp

theorem secHdrCond_star (t : List Char) : secHdrCond ('*' :: t) = false := by
  have : ('*' :: t) = ['*'] ++ t := rfl
  rw [this]
  unfold secHdrCond
  rw [startswith_false_of_front t (by decide)]
  simp

theorem natChars_ne_nil (n : Nat) : natChars n ≠ [] := by
  rw [natChars_eq]
  split
  · simp
  · simp

theorem isDigitCh_digit {d : Nat} (hd : d < 10) :
    isDigitCh (Char.ofNat (48 + d)) = true := by
  interval_cases d <;> decide

theorem natChars_digits (n : Nat) : ∀ c ∈ natChars n, isDigitCh c = true := by
  induction n using Nat.strong_induction_on with
  | _ n ih =>
    intro c hc
    rw [natChars_eq] at hc
    split at hc
    · rename_i h
      simp at hc
      rw [hc]
      exact isDigitCh_digit h
    · rename_i h
      simp at hc
      rcases hc with hc | hc
      · exact ih (n / 10) (Nat.div_lt_self (by omega) (by omega)) c hc
      · rw [hc]
        exact isDigitCh_digit (Nat.mod_lt n (by omega))

theorem digitsVal_append_single (a : List Char) (c : Char) :
    digitsVal (a ++ [c]) = 10 * digitsVal a + (c.toNat - 48) := by
  simp [digitsVal, List.foldl_append]

theorem toNat_digit {d : Nat} (hd : d < 10) :
    (Char.ofNat (48 + d)).toNat = 48 + d := by
  interval_cases d <;> decide

theorem digitsVal_natChars (n : Nat) : digitsVal (natChars n) = n := by
  induction n using Nat.strong_induction_on with
  | _ n ih =>
    rw [natChars_eq]
    split
    · rename_i h
      simp [digitsVal, toNat_digit h]
    · rename_i h
      rw [digitsVal_append_single,
        ih (n / 10) (Nat.div_lt_self (by omega) (by omega)),
        toNat_digit (Nat.mod_lt n (by omega))]
      omega

theorem parseNumLine_pre_false {s : List Char} (X : List Char)
    (h : startswith (numPre.take s.length) s = false) :
    parseNumLine (s ++ X) = none := by
  unfold parseNumLine
  rw [startswith_false_of_front X h]
  simp

theorem parseNumLine_num (n : Nat) :
    parseNumLine (numPre ++ (natChars n ++ [','])) = some n := by
  have ht := takeWhile_append_stop [] (natChars_digits n)
    (show isDigitCh ',' = false by decide)
  have hne2 : (natChars n).isEmpty = false := by
    simpa using natChars_ne_nil n
  unfold parseNumLine
  rw [startswith_append_self, List.drop_left]
  simp [ht.1, ht.2, hne2, List.drop_left (natChars n) [','], digitsVal_natChars]

theorem joinNl_cons (l : Line) (ls : List Line) :
    joinNl (l :: ls) = l ++ '\n' :: joinNl ls := by
  simp [joinNl]

theorem splitNl_line {l : List Char} (t : List Char) (h : '\n' ∉ l) :
    splitNl (l ++ '\n' :: t) = l :: splitNl t := by
  induction l with
  | nil => simp [splitNl]
  | cons c cs ih =>
    have hc : ¬ c = '\n' := by
      intro hcc
      exact h (by simp [hcc])
    have ih' := ih (fun hm => h (by simp [hm]))
    simp only [List.cons_append, splitNl, if_neg hc, List.append_eq, ih']

theorem splitNl_joinNl {L : List Line} (h : ∀ l ∈ L, '\n' ∉ l) :
    splitNl (joinNl L) = L ++ [[]] := by
  induction L with
  | nil => simp [joinNl, splitNl]
  | cons l ls ih =>
    rw [joinNl_cons, splitNl_line _ (h l (by simp)),
      ih (fun x hx => h x (by simp [hx]))]
    simp

theorem mem_replaceAll {pat rep : List Char} :
    ∀ (fuel : Nat) (l : List Char), l.length ≤ fuel →
      ∀ c ∈ replaceAll pat rep l, c ∈ l ∨ c ∈ rep := by
  intro fuel
  induction fuel with
  | zero =>
    intro l hl c hc
    have : l = [] := by
      cases l with
      | nil => rfl
      | cons a b => simp at hl
    rw [this] at hc
    simp [replaceAll_nil] at hc
  | succ fuel ih =>
    intro l hl c hc
    cases l with
    | nil => simp [replaceAll_nil] at hc
    | cons x xs =>
      rw [replaceAll_cons] at hc
      split at hc
      · rw [List.mem_append] at hc
        rcases hc with hc | hc
        · exact Or.inr hc
        · have hlen : (List.drop (pat.length - 1) xs).length ≤ fuel := by
            simp at hl ⊢
            omega
          rcases ih _ hlen c hc with hcl | hcr
          · exact Or.inl (by simp [List.mem_of_mem_drop hcl])
          · exact Or.inr hcr
      · rcases List.mem_cons.mp hc with hc | hc
        · exact Or.inl (by simp [hc])
        · rcases ih xs (by simp at hl; omega) c hc with hcl | hcr
          · exact Or.inl (by simp [hcl])
          · exact Or.inr hcr

theorem noNl_fieldEsc {f : List Char} (h : '\n' ∉ f) : '\n' ∉ fieldEsc f := by
  intro hmem
  unfold fieldEsc at hmem
  rcases mem_replaceAll (replaceAll "\"".data "\\\"".data f).length _ le_rfl _ hmem
    with h1 | h1
  · rcases mem_replaceAll f.length f le_rfl _ h1 with h2 | h2
    · exact h h2
    · simp at h2
  · simp at h1

theorem noNl_natChars (n : Nat) : '\n' ∉ natChars n := by
  intro hmem
  have := natChars_digits n '\n' hmem
  simp [isDigitCh] at this

theorem fm_ruleLines (r : PRule) :
    (ruleLines r).filterMap parseNumLine = [r.number] := by
  have h1 : parseNumLine "            \x7b".data = none := by decide
  have h2 : parseNumLine ("                number: ".data ++
      (natChars r.number ++ ",".data)) = some r.number := parseNumLine_num r.number
  have h3 : parseNumLine ("                title: \"".data ++
      (fieldEsc r.title ++ "\",".data)) = none :=
    parseNumLine_pre_false _ (by decide)
  have h4 : parseNumLine ("                description: \"".data ++
      (fieldEsc r.description ++ "\",".data)) = none :=
    parseNumLine_pre_false _ (by decide)
  have h5 : parseNumLine ("                source: \"".data ++
      (fieldEsc r.source ++ "\"".data)) = none :=
    parseNumLine_pre_false _ (by decide)
  have h6 : parseNumLine "            \x7d,".data = none := by decide
  simp at h1 h2 h3 h4 h5 h6
  simp [ruleLines, List.filterMap_cons, h1, h2, h3, h4, h5, h6]

theorem fm_secHead (title prio : List Char) :
    (secHeadLines title prio).filterMap parseNumLine = [] := by
  have h1 : parseNumLine "    \x7b".data = none := by decide
  have h2 : parseNumLine ("        title: \"".data ++ (title ++ "\",".data)) =
      none := parseNumLine_pre_false _ (by decide)
  have h3 : parseNumLine ("        priority: \"".data ++ (prio ++ "\",".data)) =
      none := parseNumLine_pre_false _ (by decide)
  have h4 : parseNumLine "        rules: [".data = none := by decide
  simp at h1 h2 h3 h4
  simp [secHeadLines, List.filterMap_cons, h1, h2, h3, h4]

theorem fm_flatten_rules (rs : List PRule) :
    ((rs.map ruleLines).flatten).filterMap parseNumLine =
      rs.map (fun r => r.number) := by
  induction rs with
  | nil => simp
  | cons r rs' ih => simp [List.filterMap_append, fm_ruleLines, ih]

theorem fm_secClose : secCloseLines.filterMap parseNumLine = [] := by decide

theorem fm_sectionLines (s : PSection) :
    (sectionLines s).filterMap parseNumLine = s.rules.map (fun r => r.number) := by
  unfold sectionLines
  rw [List.filterMap_append, List.filterMap_append, fm_secHead,
    fm_flatten_rules, fm_secClose]
  simp

theorem fm_gsectionLines (s : GSection) :
    (gsectionLines s).filterMap parseNumLine = s.rules.map (fun r => r.number) := by
  unfold gsectionLines
  rw [List.filterMap_append, List.filterMap_append, fm_secHead,
    fm_flatten_rules, fm_secClose]
  simp

theorem fm_secs_flatten (secs : List PSection) :
    ((secs.map sectionLines).flatten).filterMap parseNumLine = docNums1 secs := by
  induction secs with
  | nil => simp [docNums1]
  | cons s secs' ih =>
    simp [List.filterMap_append, fm_sectionLines, ih, docNums1]

theorem fm_gsecs_flatten (secs : List GSection) :
    ((secs.map gsectionLines).flatten).filterMap parseNumLine = docNums2 secs := by
  induction secs with
  | nil => simp [docNums2]
  | cons s secs' ih =>
    simp [List.filterMap_append, fm_gsectionLines, ih, docNums2]

theorem fm_header1 : header1.filterMap parseNumLine = [] := by decide

theorem fm_header2 : header2.filterMap parseNumLine = [] := by decide

theorem fm_tail2 : tail2.filterMap parseNumLine = [] := by decide

/-- All text fields of a rule are single-line (no embedded newline), as is
the case for every rule the extractors build, since fields come from single
lines of the input. -/
def ruleOneLine (r : PRule) : Prop :=
  '\n' ∉ r.title ∧ '\n' ∉ r.description ∧ '\n' ∉ r.source

/-- All text fields of a header-driven-variant section are single-line. -/
def secOneLine (s : PSection) : Prop :=
  '\n' ∉ s.title ∧ '\n' ∉ pyOptStr s.priority ∧ ∀ r ∈ s.rules, ruleOneLine r

/-- All text fields of a complete-variant section are single-line. -/
def gsecOneLine (s : GSection) : Prop :=
  '\n' ∉ s.title ∧ '\n' ∉ s.priority ∧ ∀ r ∈ s.rules, ruleOneLine r

theorem noNl_ruleLines {r : PRule} (h : ruleOneLine r) :
    ∀ l ∈ ruleLines r, '\n' ∉ l := by
  intro l hl
  simp only [ruleLines, List.mem_cons, List.not_mem_nil, or_false] at hl
  rcases hl with rfl | rfl | rfl | rfl | rfl | rfl
  · decide
  · intro hm
    simp [List.mem_append] at hm
    exact noNl_natChars _ hm
  · intro hm
    simp [List.mem_append] at hm
    exact noNl_fieldEsc h.1 hm
  · intro hm
    simp [List.mem_append] at hm
    exact noNl_fieldEsc h.2.1 hm
  · intro hm
    simp [List.mem_append] at hm
    exact noNl_fieldEsc h.2.2 hm
  · decide

theorem noNl_secHead {title prio : List Char}
    (h1 : '\n' ∉ title) (h2 : '\n' ∉ prio) :
    ∀ l ∈ secHeadLines title prio, '\n' ∉ l := by
  intro l hl
  simp only [secHeadLines, List.mem_cons, List.not_mem_nil, or_false] at hl
  rcases hl with rfl | rfl | rfl | rfl
  · decide
  · intro hm
    simp [List.mem_append] at hm
    exact h1 hm
  · intro hm
    simp [List.mem_append] at hm
    exact h2 hm
  · decide

theorem noNl_sectionLines {s : PSection} (h : secOneLine s) :
    ∀ l ∈ sectionLines s, '\n' ∉ l := by
  intro l hl
  unfold sectionLines at hl
  rcases List.mem_append.mp hl with hl | hl
  · rcases List.mem_append.mp hl with hl | hl
    · exact noNl_secHead h.1 h.2.1 l hl
    · rw [List.mem_flatten] at hl
      obtain ⟨block, hb, hlb⟩ := hl
      rw [List.mem_map] at hb
      obtain ⟨r, hr, rfl⟩ := hb
      exact noNl_ruleLines (h.2.2 r hr) l hlb
  · simp only [secCloseLines, List.mem_cons, List.not_mem_nil, or_false] at hl
    rcases hl with rfl | rfl
    · decide
    · decide

theorem noNl_gsectionLines {s : GSection} (h : gsecOneLine s) :
    ∀ l ∈ gsectionLines s, '\n' ∉ l := by
  intro l hl
  unfold gsectionLines at hl
  rcases List.mem_append.mp hl with hl | hl
  · rcases List.mem_append.mp hl with hl | hl
    · exact noNl_secHead h.1 h.2.1 l hl
    · rw [List.mem_flatten] at hl
      obtain ⟨block, hb, hlb⟩ := hl
      rw [List.mem_map] at hb
      obtain ⟨r, hr, rfl⟩ := hb
      exact noNl_ruleLines (h.2.2 r hr) l hlb
  · simp only [secCloseLines, List.mem_cons, List.not_mem_nil, or_false] at hl
    rcases hl with rfl | rfl
    · decide
    · decide

theorem noNl_header1 : ∀ l ∈ header1, '\n' ∉ l := by decide

theorem noNl_header2 : ∀ l ∈ header2, '\n' ∉ l := by decide

theorem noNl_tail2 : ∀ l ∈ tail2, '\n' ∉ l := by decide

theorem numExtract_emitDoc1 {secs : List PSection}
    (h : ∀ s ∈ secs, secOneLine s) :
    numExtract (emitDoc1 secs) = docNums1 secs := by
  have hall : ∀ l ∈ header1 ++ (secs.map sectionLines).flatten ++ ["];".data],
      '\n' ∉ l := by
    intro l hl
    rcases List.mem_append.mp hl with hl | hl
    · rcases List.mem_append.mp hl with hl | hl
      · exact noNl_header1 l hl
      · rw [List.mem_flatten] at hl
        obtain ⟨block, hb, hlb⟩ := hl
        rw [List.mem_map] at hb
        obtain ⟨sec, hsec, rfl⟩ := hb
        exact noNl_sectionLines (h sec hsec) l hlb
    · simp at hl
      rw [hl]
      decide
  unfold numExtract emitDoc1
  rw [splitNl_joinNl hall, List.filterMap_append, List.filterMap_append,
    List.filterMap_append, fm_header1, fm_secs_flatten]
  simp [parseNumLine, numPre, startswith]

theorem numExtract_emitDoc2 {secs : List GSection}
    (h : ∀ s ∈ secs, gsecOneLine s) :
    numExtract (emitDoc2 secs) = docNums2 secs := by
  have hall : ∀ l ∈ header2 ++ (secs.map gsectionLines).flatten ++ tail2,
      '\n' ∉ l := by
    intro l hl
    rcases List.mem_append.mp hl with hl | hl
    · rcases List.mem_append.mp hl with hl | hl
      · exact noNl_header2 l hl
      · rw [List.mem_flatten] at hl
        obtain ⟨block, hb, hlb⟩ := hl
        rw [List.mem_map] at hb
        obtain ⟨sec, hsec, rfl⟩ := hb
        exact noNl_gsectionLines (h sec hsec) l hlb
    · exact noNl_tail2 l hl
  unfold numExtract emitDoc2
  rw [splitNl_joinNl hall, List.filterMap_append, List.filterMap_append,
    List.filterMap_append, fm_header2, fm_gsecs_flatten, fm_tail2]
  simp [parseNumLine, numPre, startswith]

/-- The priority values the header-driven scanner can hold: `None` before
any tier header, afterwards one of the four tier strings. -/
def prioOk (p : Option (List Char)) : Prop :=
  p = none ∨ p = some "critical".data ∨ p = some "high".data ∨
    p = some "important".data ∨ p = some "info".data

theorem tierOf_prio {ls : List Char} {p : List Char}
    (h : tierOf ls = some p) :
    p = "critical".data ∨ p = "high".data ∨ p = "important".data ∨
      p = "info".data := by
  unfold tierOf at h
  split_ifs at h <;> simp_all

theorem scan1_prioInv (s : St1) (ls : List Line) :
    prioOk s.curPrio → (∀ sec ∈ s.sections, prioOk sec.priority) →
    ∀ sec ∈ scan1 s ls, prioOk sec.priority := by
  induction s, ls using scan1.induct with
  | case1 s =>
    intro h1 h2 sec hsec
    rw [scan1_nil] at hsec
    rcases List.mem_append.mp hsec with hm | hm
    · exact h2 sec hm
    · unfold flushList at hm
      split at hm
      · simp at hm
        rw [hm]
        exact h1
      · simp at hm
  | case2 s l rest p ht ih =>
    intro h1 h2
    rw [scan1_tier s rest ht]
    refine ih ?_ h2
    rcases tierOf_prio ht with hp | hp | hp | hp <;> simp [prioOk, hp]
  | case3 s l rest ht hsec ih =>
    intro h1 h2
    rw [scan1_sec s rest ht hsec]
    apply ih h1
    intro sec hm
    rcases List.mem_append.mp hm with hm | hm
    · exact h2 sec hm
    · unfold flushList at hm
      split at hm
      · simp at hm
        rw [hm]
        exact h1
      · simp at hm
  | case4 s l rest ht hsec nt hr fs hc1 hc ih =>
    intro h1 h2
    rw [scan1_rule_nil s rest ht (by simpa using hsec) hr hc]
    exact ih h1 h2
  | case5 s l rest ht hsec nt hr fs term r2 hc1 hc ih =>
    intro h1 h2
    rw [scan1_rule_cons s rest ht (by simpa using hsec) hr hc]
    exact ih h1 h2
  | case6 s l rest ht hsec hr ih =>
    intro h1 h2
    rw [scan1_skip s rest ht (by simpa using hsec) hr]
    exact ih h1 h2

theorem group2Go_prio :
    ∀ (rs : List PRule) (curTitle : Option (List Char)) (acc : List PRule),
      ∀ sec ∈ group2Go curTitle acc rs,
        sec.priority = "critical".data ∨ sec.priority = "high".data ∨
          sec.priority = "important".data := by
  intro rs
  induction rs with
  | nil =>
    intro curTitle acc sec hsec
    unfold group2Go at hsec
    split at hsec
    · simp at hsec
    · simp at hsec
      rw [hsec]
      simp
  | cons r rs' ih =>
    intro curTitle acc sec hsec
    unfold group2Go at hsec
    split at hsec
    · rcases List.mem_cons.mp hsec with hm | hm
      · rw [hm]
        unfold prioForNum
        split_ifs <;> simp
      · exact ih _ _ sec hm
    · exact ih _ _ sec hsec

theorem replaceAll_single_ne {q c : Char} {rep l : List Char} (h : c ≠ q) :
    replaceAll [q] rep (c :: l) = c :: replaceAll [q] rep l := by
  rw [replaceAll_cons]
  rw [if_neg]
  intro hcon
  have := hcon.2
  simp [startswith] at this
  exact h this.symm

theorem replaceAll_single_eq {q : Char} {rep l : List Char} :
    replaceAll [q] rep (q :: l) = rep ++ replaceAll [q] rep l := by
  rw [replaceAll_cons]
  rw [if_pos]
  · simp
  · simp [startswith]

theorem fieldEsc_cons_other {c : Char} (f : List Char)
    (h1 : c ≠ '"') (h2 : c ≠ '\'') :
    fieldEsc (c :: f) = c :: fieldEsc f := by
  unfold fieldEsc
  rw [show ("\"".data : List Char) = ['"'] from rfl,
    show ("'".data : List Char) = ['\''] from rfl] at *
  rw [replaceAll_single_ne h1, replaceAll_single_ne h2]

theorem fieldEsc_cons_quote (f : List Char) :
    fieldEsc ('"' :: f) = '\\' :: '"' :: fieldEsc f := by
  unfold fieldEsc
  rw [show ("\"".data : List Char) = ['"'] from rfl,
    show ("'".data : List Char) = ['\''] from rfl] at *
  rw [replaceAll_single_eq]
  rw [show ("\\\"".data : List Char) = ['\\', '"'] from rfl]
  rw [show ['\\', '"'] ++ replaceAll ['"'] ['\\', '"'] f =
    '\\' :: '"' :: replaceAll ['"'] ['\\', '"'] f from rfl]
  rw [replaceAll_single_ne (by decide), replaceAll_single_ne (by decide)]

theorem fieldEsc_cons_apos (f : List Char) :
    fieldEsc ('\'' :: f) = '\\' :: '\'' :: fieldEsc f := by
  unfold fieldEsc
  rw [show ("\"".data : List Char) = ['"'] from rfl,
    show ("'".data : List Char) = ['\''] from rfl] at *
  rw [replaceAll_single_ne (by decide), replaceAll_single_eq]
  rfl

theorem litParse_other {c : Char} (t : List Char)
    (h1 : c ≠ '"') (h2 : c ≠ '\\') (h3 : c ≠ '\n') :
    litParse (c :: t) = (litParse t).map (fun p => (c :: p.1, p.2)) := by
  match t with
  | [] =>
    rw [litParse.eq_def]
    simp [h1, h2, h3]
  | x :: xs =>
    rw [litParse.eq_def]
    simp [h1, h2, h3]

/-- Parse-back of one escaped field: when the field contains no backslash
and no newline, the escaped text followed by the closing quote parses back
to exactly the original field. -/
theorem litParse_fieldEsc (f : List Char) (rest : List Char)
    (hb : '\\' ∉ f) (hn : '\n' ∉ f) :
    litParse (fieldEsc f ++ '"' :: rest) = some (f, rest) := by
  induction f with
  | nil => simp [fieldEsc, replaceAll, litParse]
  | cons c f' ih =>
    have hb' : '\\' ∉ f' := fun hm => hb (by simp [hm])
    have hn' : '\n' ∉ f' := fun hm => hn (by simp [hm])
    have ih' := ih hb' hn'
    by_cases hq : c = '"'
    · subst hq
      rw [fieldEsc_cons_quote]
      rw [show ('\\' :: '"' :: fieldEsc f') ++ '"' :: rest =
        '\\' :: '"' :: (fieldEsc f' ++ '"' :: rest) by simp]
      rw [litParse, ih']
      simp [unescCh]
    · by_cases ha : c = '\''
      · subst ha
        rw [fieldEsc_cons_apos]
        rw [show ('\\' :: '\'' :: fieldEsc f') ++ '"' :: rest =
          '\\' :: '\'' :: (fieldEsc f' ++ '"' :: rest) by simp]
        rw [litParse, ih']
        simp [unescCh]
      · have hbc : c ≠ '\\' := fun hm => hb (by simp [hm])
        have hnc : c ≠ '\n' := fun hm => hn (by simp [hm])
        rw [fieldEsc_cons_other f' hq ha]
        rw [show (c :: fieldEsc f') ++ '"' :: rest =
          c :: (fieldEsc f' ++ '"' :: rest) by simp]
        rw [litParse_other _ hq hbc hnc, ih']
        rfl

theorem ruleHeader_two_stars {ls : List Char} {nt : Nat × List Char}
    (h : ruleHeaderMatch ls = some nt) : ∃ r, ls = '*' :: '*' :: r := by
  rw [ruleHeaderMatch.eq_def] at h
  split at h
  · rename_i r
    exact ⟨r, rfl⟩
  · cases h

theorem tierOf_of_rule {ls : List Char} {nt : Nat × List Char}
    (h : ruleHeaderMatch ls = some nt) : tierOf ls = none := by
  obtain ⟨r, rfl⟩ := ruleHeader_two_stars h
  exact tierOf_star _

theorem secHdr_of_rule {ls : List Char} {nt : Nat × List Char}
    (h : ruleHeaderMatch ls = some nt) : secHdrCond ls = false := by
  obtain ⟨r, rfl⟩ := ruleHeader_two_stars h
  exact secHdrCond_star _

/-- Evaluate the header-driven extractor on a concrete input through the
fueled loop (which the kernel can reduce), using the loop equivalence. -/
theorem extract1_eval {content : List Char} {out : List PSection}
    (h : loop1 (splitNl content) ((splitNl content).length + 1) 0
      ⟨[], none, none, []⟩ = some out) :
    extract1 content = out := by
  have he := loop1_eq (splitNl content) ((splitNl content).length + 1) 0
    ⟨[], none, none, []⟩ (by omega)
  rw [h, List.drop_zero] at he
  unfold extract1
  exact (Option.some.injEq _ _ ▸ he).symm

/-- Evaluate the complete-variant extraction on a concrete input through
the fueled loop. -/
theorem extractRules2_eval {content : List Char} {out : List PRule}
    (h : loop2 (splitNl content) ((splitNl content).length + 1) 0 [] =
      some out) :
    extractRules2 content = out := by
  have he := loop2_eq (splitNl content) ((splitNl content).length + 1) 0
    [] (by omega)
  rw [h, List.drop_zero] at he
  unfold extractRules2
  have := (Option.some.injEq _ _ ▸ he)
  simpa using this.symm

/-- C2 (amended).  After a rule header is matched, the consumed description
lines are exactly the immediately following lines satisfying the loop
condition of the respective variant: in `parse_rules.py`, stripped lines
beginning with `-` that do not (after stripping) begin with `- **Source`;
in `parse_rules_complete.py`, stripped lines beginning with `-` that do not
contain `**Source**`.  They are consumed in order until the first line
failing the condition (or end of input); that terminating line is never
part of the description.  The source is nonempty only when the terminating
line contains `- **Source**:` (respectively `**Source**:`), and is then
obtained by deleting every occurrence of `- **Source**:` from the stripped
terminating line and trimming; otherwise it is the empty string.  In the
header-driven variant the terminating line is stepped past; in the complete
variant it is reprocessed unless it supplied the source. -/
theorem c2_description_consumption :
    (∀ (s : St1) (l : Line) (nt : Nat × List Char) (bs : List Line)
       (term : Line) (rest : List Line),
       ruleHeaderMatch (pstrip l) = some nt →
       (∀ b ∈ bs, bulletCond1 b = true) → bulletCond1 term = false →
       scan1 s (l :: (bs ++ term :: rest)) =
         scan1 ⟨s.sections, s.curSec, s.curPrio,
           s.rules ++ [⟨nt.1, nt.2, descAcc (bs.map frag),
             if hasSubstr "- **Source**:".data term then srcOf term else []⟩]⟩
           rest)
  ∧ (∀ (s : St1) (l : Line) (nt : Nat × List Char) (bs : List Line),
       ruleHeaderMatch (pstrip l) = some nt →
       (∀ b ∈ bs, bulletCond1 b = true) →
       scan1 s (l :: bs) =
         scan1 ⟨s.sections, s.curSec, s.curPrio,
           s.rules ++ [⟨nt.1, nt.2, descAcc (bs.map frag), []⟩]⟩ [])
  ∧ (∀ (l : Line) (nt : Nat × List Char) (bs : List Line)
       (term : Line) (rest : List Line),
       ruleHeaderMatch (pstrip l) = some nt →
       (∀ b ∈ bs, bulletCond2 b = true) → bulletCond2 term = false →
       rules2 (l :: (bs ++ term :: rest)) =
         (if hasSubstr "**Source**:".data term then
           ⟨nt.1, nt.2, joinSpace (bs.map frag), srcOf term⟩ :: rules2 rest
         else ⟨nt.1, nt.2, joinSpace (bs.map frag), []⟩ :: rules2 (term :: rest)))
  ∧ (∀ (l : Line) (nt : Nat × List Char) (bs : List Line),
       ruleHeaderMatch (pstrip l) = some nt →
       (∀ b ∈ bs, bulletCond2 b = true) →
       rules2 (l :: bs) = [⟨nt.1, nt.2, joinSpace (bs.map frag), []⟩]) := by
  refine ⟨?_, ?_, ?_, ?_⟩
  · intro s l nt bs term rest hm hb ht
    rw [scan1_rule_cons s _ (tierOf_of_rule hm) (secHdr_of_rule hm) hm
      (consume1_run rest hb ht)]
  · intro s l nt bs hm hb
    rw [scan1_rule_nil s _ (tierOf_of_rule hm) (secHdr_of_rule hm) hm
      (consume1_all hb)]
  · intro l nt bs term rest hm hb ht
    rw [rules2_rule_cons _ hm (consume2_run rest hb ht)]
  · intro l nt bs hm hb
    rw [rules2_rule_nil _ hm (consume2_all hb)]

/-- Witness for C2: a rule header followed by one bullet and a source line,
processed from the initial scanner state by the header-driven variant. -/
theorem c2_description_consumption_witness :
    scan1 ⟨[], none, none, []⟩
      ("**1. T**".data :: (["- a".data] ++ "- **Source**: s".data :: [])) =
      scan1 ⟨[], none, none,
        [⟨1, "T".data, descAcc (["- a".data].map frag),
          if hasSubstr "- **Source**:".data "- **Source**: s".data then
            srcOf "- **Source**: s".data
          else []⟩]⟩ [] := by
  have h := c2_description_consumption.1 ⟨[], none, none, []⟩
    "**1. T**".data (1, "T".data) ["- a".data] "- **Source**: s".data []
    (by decide) (by decide) (by decide)
  exact h

/-- Counterexample for C2 as stated: in the header-driven variant a bullet
line that contains the marker `- **Source**:` in its middle is consumed as
a description fragment rather than terminating the run; the claim says any
line containing the Source marker terminates the run unconsumed. -/
theorem c2_description_consumption_cex :
    extract1
      ("### **S**\n**1. T**\n- x - **Source**: y\n- **Source**: real").data =
      [⟨"S".data, none,
        [⟨1, "T".data, "x - **Source**: y".data, "real".data⟩]⟩]
    ∧ hasSubstr "- **Source**:".data "- x - **Source**: y".data = true := by
  constructor
  · exact extract1_eval (by decide)
  · decide

/-- C3: a matched rule header immediately followed by a non-bullet line
still yields a Rule record with empty description, in both variants (the
header-driven scanner steps past the non-bullet line, the complete one
reprocesses it unless it was a source line). -/
theorem c3_no_bullet_rule (l nb : Line) (nt : Nat × List Char)
    (rest : List Line)
    (hm : ruleHeaderMatch (pstrip l) = some nt)
    (hnb : startswith "-".data (pstrip nb) = false) :
    (∀ s : St1, ∃ src1,
      scan1 s (l :: nb :: rest) =
        scan1 ⟨s.sections, s.curSec, s.curPrio,
          s.rules ++ [⟨nt.1, nt.2, [], src1⟩]⟩ rest)
    ∧ ∃ src2 rest2,
      rules2 (l :: nb :: rest) = ⟨nt.1, nt.2, [], src2⟩ :: rules2 rest2 := by
  have hb1 : bulletCond1 nb = false := by
    unfold bulletCond1
    rw [hnb]
    simp
  have hb2 : bulletCond2 nb = false := by
    unfold bulletCond2
    rw [hnb]
    simp
  have hc1 : consume1 (nb :: rest) = (([] : List Line).map frag, nb :: rest) :=
    @consume1_run [] nb rest (by intro b hb; cases hb) hb1
  have hc2 : consume2 (nb :: rest) = (([] : List Line).map frag, nb :: rest) :=
    @consume2_run [] nb rest (by intro b hb; cases hb) hb2
  constructor
  · intro s
    refine ⟨if hasSubstr "- **Source**:".data nb then srcOf nb else [], ?_⟩
    rw [scan1_rule_cons s _ (tierOf_of_rule hm) (secHdr_of_rule hm) hm hc1]
    rfl
  · by_cases hsrc : hasSubstr "**Source**:".data nb
    · refine ⟨srcOf nb, rest, ?_⟩
      rw [rules2_rule_cons _ hm hc2]
      simp [hsrc]
      rfl
    · refine ⟨[], nb :: rest, ?_⟩
      rw [rules2_rule_cons _ hm hc2]
      simp [hsrc]
      rfl

/-- Witness for C3: `**2. U**` followed by a plain text line. -/
theorem c3_no_bullet_rule_witness :
    (∀ s : St1, ∃ src1,
      scan1 s ("**2. U**".data :: "plain".data :: []) =
        scan1 ⟨s.sections, s.curSec, s.curPrio,
          s.rules ++ [⟨2, "U".data, [], src1⟩]⟩ [])
    ∧ ∃ src2 rest2,
      rules2 ("**2. U**".data :: "plain".data :: []) =
        ⟨2, "U".data, [], src2⟩ :: rules2 rest2 :=
  c3_no_bullet_rule "**2. U**".data "plain".data (2, "U".data) []
    (by decide) (by decide)

/-- C5: a line whose stripped form matches one of the four fixed
priority-tier header texts only updates `current_priority`: the open
section title, the accumulated rules and the emitted sections are
unchanged, no section is appended, and the new tier is one of the four
tier values. -/
theorem c5_tier_header_frame (s : St1) (l : Line) (p : List Char)
    (rest : List Line) (ht : tierOf (pstrip l) = some p) :
    scan1 s (l :: rest) = scan1 ⟨s.sections, s.curSec, some p, s.rules⟩ rest ∧
    (p = "critical".data ∨ p = "high".data ∨ p = "important".data ∨
      p = "info".data) :=
  ⟨scan1_tier s rest ht, tierOf_prio ht⟩

/-- Witness for C5: the CRITICAL tier header processed from a state with an
open section and pending rules. -/
theorem c5_tier_header_frame_witness :
    scan1 ⟨[], some "S".data, none, [⟨1, "A".data, [], []⟩]⟩
      ("## **CRITICAL MANDATORY REQUIREMENTS**".data :: []) =
      scan1 ⟨[], some "S".data, some "critical".data,
        [⟨1, "A".data, [], []⟩]⟩ [] ∧
    ("critical".data = "critical".data ∨ "critical".data = "high".data ∨
      "critical".data = "important".data ∨ "critical".data = "info".data) :=
  c5_tier_header_frame ⟨[], some "S".data, none, [⟨1, "A".data, [], []⟩]⟩
    "## **CRITICAL MANDATORY REQUIREMENTS**".data "critical".data []
    (by decide)

/-- C1 (amended).  A well-formed rule block — a header line
`**N. Title**` (digit run `ds`, title starting with a non-whitespace
character), one or more bullet lines, then a source line
`- **Source**: src` — yields a Rule with number `int(ds)`, the title with
the delimiters stripped, and source equal to the trimmed text after the
marker.  In the complete variant the description is always the space-join
of the bullet texts (marker removed, trimmed); the header-driven variant
agrees whenever the first bullet's text is nonempty (it drops leading
empty fragments without a separator). -/
theorem c1_wellformed_rule (ds T' : List Char) (t0 : Char) (bs : List Line)
    (src : List Char) (rest : List Line)
    (hds : ds ≠ []) (hdig : ∀ c ∈ ds, isDigitCh c = true)
    (ht0 : isSpaceCh t0 = false)
    (hb : ∀ b ∈ bs, bulletCond1 b = true ∧ bulletCond2 b = true)
    (hsrc : hasSubstr "- **Source**:".data src = false) :
    (rules2 (('*' :: '*' :: (ds ++ '.' :: (' ' :: t0 :: T' ++ ['*', '*']))) ::
        (bs ++ ("- **Source**:".data ++ src) :: rest)) =
      ⟨digitsVal ds, t0 :: T', joinSpace (bs.map frag), pstrip src⟩ ::
        rules2 rest)
    ∧ ((∀ f0 fs0, bs.map frag = f0 :: fs0 → f0 ≠ []) →
       ∀ s : St1,
         scan1 s (('*' :: '*' :: (ds ++ '.' :: (' ' :: t0 :: T' ++ ['*', '*']))) ::
             (bs ++ ("- **Source**:".data ++ src) :: rest)) =
           scan1 ⟨s.sections, s.curSec, s.curPrio,
             s.rules ++ [⟨digitsVal ds, t0 :: T', joinSpace (bs.map frag),
               pstrip src⟩]⟩ rest) := by
  have hshape : ('*' :: '*' :: (ds ++ '.' :: (' ' :: t0 :: T' ++ ['*', '*']))) =
      '*' :: ('*' :: ds ++ '.' :: ' ' :: t0 :: T' ++ ['*']) ++ ['*'] := by
    simp
  have hps : pstrip ('*' :: '*' :: (ds ++ '.' :: (' ' :: t0 :: T' ++ ['*', '*']))) =
      '*' :: '*' :: (ds ++ '.' :: (' ' :: t0 :: T' ++ ['*', '*'])) := by
    rw [hshape]
    have := pstrip_cons_last ('*' :: ds ++ '.' :: ' ' :: t0 :: T' ++ ['*'])
      (show isSpaceCh '*' = false by decide) (show isSpaceCh '*' = false by decide)
    simpa using this
  have hm : ruleHeaderMatch
      (pstrip ('*' :: '*' :: (ds ++ '.' :: (' ' :: t0 :: T' ++ ['*', '*'])))) =
      some (digitsVal ds, t0 :: T') := by
    rw [hps]
    exact ruleHeaderMatch_shape ds T' t0 hds hdig ht0
  have hsv : srcOf ("- **Source**:".data ++ src) = pstrip src :=
    srcOf_marker src hsrc
  constructor
  · rw [rules2_rule_cons _ hm
      (consume2_run rest (fun b hb' => (hb b hb').2) (bulletCond2_srcline src))]
    rw [if_pos (hasSubstr_m2_srcline src), hsv]
  · intro hfirst s
    rw [scan1_rule_cons s _ (tierOf_of_rule hm) (secHdr_of_rule hm) hm
      (consume1_run rest (fun b hb' => (hb b hb').1) (bulletCond1_srcline src))]
    rw [if_pos (hasSubstr_m1_srcline src), hsv]
    have hdesc : descAcc (bs.map frag) = joinSpace (bs.map frag) := by
      cases hmf : bs.map frag with
      | nil => rfl
      | cons f0 fs0 => exact descAcc_eq_joinSpace fs0 (hfirst f0 fs0 hmf)
    rw [hdesc]

/-- Witness for C1: the worked example from the specification. -/
theorem c1_wellformed_rule_witness :
    rules2 ["**3. Mandatory Review Threshold**".data,
            "- All contracts above $X require review".data,
            "- **Source**: PR2025, Section 4, p.12".data] =
      [⟨3, "Mandatory Review Threshold".data,
        "All contracts above $X require review".data,
        "PR2025, Section 4, p.12".data⟩] ∧
    scan1 ⟨[], none, none, []⟩
        ["**3. Mandatory Review Threshold**".data,
         "- All contracts above $X require review".data,
         "- **Source**: PR2025, Section 4, p.12".data] =
      scan1 ⟨[], none, none,
        [⟨3, "Mandatory Review Threshold".data,
          "All contracts above $X require review".data,
          "PR2025, Section 4, p.12".data⟩]⟩ [] := by
  have h := c1_wellformed_rule ['3'] "andatory Review Threshold".data 'M'
    ["- All contracts above $X require review".data]
    " PR2025, Section 4, p.12".data []
    (by decide) (by decide) (by decide) (by decide) (by decide)
  have eL : (["**3. Mandatory Review Threshold**".data,
      "- All contracts above $X require review".data,
      "- **Source**: PR2025, Section 4, p.12".data] : List Line) =
      ('*' :: '*' :: (['3'] ++ '.' ::
        (' ' :: 'M' :: "andatory Review Threshold".data ++ ['*', '*']))) ::
      (["- All contracts above $X require review".data] ++
        ("- **Source**:".data ++ " PR2025, Section 4, p.12".data) :: []) := by
    decide
  have e2 : (⟨digitsVal ['3'], 'M' :: "andatory Review Threshold".data,
      joinSpace (["- All contracts above $X require review".data].map frag),
      pstrip " PR2025, Section 4, p.12".data⟩ : PRule) =
      ⟨3, "Mandatory Review Threshold".data,
        "All contracts above $X require review".data,
        "PR2025, Section 4, p.12".data⟩ := by decide
  constructor
  · rw [eL, h.1, show rules2 [] = [] from by simp [rules2], e2]
  · have h2 := h.2 (by
      intro f0 fs0 hf
      rw [show (["- All contracts above $X require review".data].map frag) =
        ["All contracts above $X require review".data] from by decide] at hf
      cases hf
      decide) ⟨[], none, none, []⟩
    rw [eL, h2, List.nil_append, e2]

/-- Counterexample for C1 as stated: with a first bullet whose text is
empty (the line `-`), the header-driven variant produces description `a`,
while the space-join of the bullet texts is ` a` (leading separator kept),
so the two variants disagree and the claim's universal description formula
fails for `parse_rules.py`. -/
theorem c1_wellformed_rule_cex :
    extract1 ("### **S**\n**1. T**\n-\n- a\n- **Source**: s").data =
      [⟨"S".data, none, [⟨1, "T".data, "a".data, "s".data⟩]⟩] ∧
    joinSpace (["-".data, "- a".data].map frag) = " a".data ∧
    ("a".data : List Char) ≠ " a".data := by
  refine ⟨extract1_eval (by decide), by decide, by decide⟩

/-- C4 (amended).  In the header-driven variant a section is appended
exactly when, at a flush point (a new section header or end of input), the
open section's title is truthy (non-`None` and nonempty) and the rule
accumulator is nonempty.  The accumulator is not cleared by a header that
arrives with no open section, so it may contain rules matched before the
section header; a header-to-header gap with no rules of its own can
therefore still be emitted. -/
theorem c4_section_flush :
    (∀ (secs : List PSection) (t : List Char) (p : Option (List Char))
       (rs : List PRule), t ≠ [] → rs ≠ [] →
       scan1 ⟨secs, some t, p, rs⟩ [] = secs ++ [⟨t, p, rs⟩])
  ∧ (∀ (secs : List PSection) (t : List Char) (p : Option (List Char)),
       scan1 ⟨secs, some t, p, []⟩ [] = secs)
  ∧ (∀ (secs : List PSection) (p : Option (List Char)) (rs : List PRule),
       scan1 ⟨secs, none, p, rs⟩ [] = secs)
  ∧ (∀ (secs : List PSection) (t : List Char) (p : Option (List Char))
       (rs : List PRule) (l : Line) (rest : List Line),
       startswith "### **".data (pstrip l) = true →
       endswith "**".data (pstrip l) = true → t ≠ [] → rs ≠ [] →
       scan1 ⟨secs, some t, p, rs⟩ (l :: rest) =
         scan1 ⟨secs ++ [⟨t, p, rs⟩], some (secTitle (pstrip l)), p, []⟩ rest)
  ∧ (∀ (secs : List PSection) (t : List Char) (p : Option (List Char))
       (l : Line) (rest : List Line),
       startswith "### **".data (pstrip l) = true →
       endswith "**".data (pstrip l) = true →
       scan1 ⟨secs, some t, p, []⟩ (l :: rest) =
         scan1 ⟨secs, some (secTitle (pstrip l)), p, []⟩ rest)
  ∧ (∀ (secs : List PSection) (p : Option (List Char)) (rs : List PRule)
       (l : Line) (rest : List Line),
       startswith "### **".data (pstrip l) = true →
       endswith "**".data (pstrip l) = true →
       scan1 ⟨secs, none, p, rs⟩ (l :: rest) =
         scan1 ⟨secs, some (secTitle (pstrip l)), p, rs⟩ rest) := by
  refine ⟨?_, ?_, ?_, ?_, ?_, ?_⟩
  · intro secs t p rs ht hrs
    rw [scan1_nil]
    have hte : t.isEmpty = false := by simpa using ht
    have hre : rs.isEmpty = false := by simpa using hrs
    simp [flushList, flushCond, curSecTruthy, hte, hre]
  · intro secs t p
    rw [scan1_nil]
    simp [flushList, flushCond, curSecTruthy]
  · intro secs p rs
    rw [scan1_nil]
    simp [flushList, flushCond, curSecTruthy]
  · intro secs t p rs l rest h1 h2 ht hrs
    have hhc : secHdrCond (pstrip l) = true := by
      unfold secHdrCond
      rw [h1, h2]
      rfl
    rw [scan1_sec _ rest (tierOf_of_secHdr h1) hhc]
    have hte : t.isEmpty = false := by simpa using ht
    have hre : rs.isEmpty = false := by simpa using hrs
    simp [flushList, flushCond, curSecTruthy, hte, hre]
  · intro secs t p l rest h1 h2
    have hhc : secHdrCond (pstrip l) = true := by
      unfold secHdrCond
      rw [h1, h2]
      rfl
    rw [scan1_sec _ rest (tierOf_of_secHdr h1) hhc]
    simp [flushList, flushCond, curSecTruthy]
  · intro secs p rs l rest h1 h2
    have hhc : secHdrCond (pstrip l) = true := by
      unfold secHdrCond
      rw [h1, h2]
      rfl
    rw [scan1_sec _ rest (tierOf_of_secHdr h1) hhc]
    simp [flushList, flushCond, curSecTruthy]

/-- Witness for C4: a flush triggered by a section header with an open,
rule-bearing section. -/
theorem c4_section_flush_witness :
    scan1 ⟨[], some "S".data, none, [⟨1, "A".data, [], []⟩]⟩
        ("### **T**".data :: []) =
      scan1 ⟨[⟨"S".data, none, [⟨1, "A".data, [], []⟩]⟩],
        some (secTitle (pstrip "### **T**".data)), none, []⟩ [] :=
  c4_section_flush.2.2.2.1 [] "S".data none [⟨1, "A".data, [], []⟩]
    "### **T**".data [] (by decide) (by decide) (by decide) (by decide)

/-- Counterexample for C4 as stated: section `S` is emitted although its
header is immediately followed by another section header with no
intervening matched rules — the rule matched before `S`'s header is still
in the accumulator and is flushed with `S`.  (The claim predicts the empty
output here.) -/
theorem c4_section_flush_cex :
    extract1 ("**1. A**\nx\n### **S**\n### **T**").data =
      [⟨"S".data, none, [⟨1, "A".data, [], []⟩]⟩] ∧
    ([⟨"S".data, none, [⟨1, "A".data, [], []⟩]⟩] : List PSection) ≠ [] := by
  refine ⟨extract1_eval (by decide), by decide⟩

/-- C10: rules matched before any section header stay in the rule
accumulator — a section header arriving with `current_section = None`
flushes nothing and clears nothing — and they appear ahead of the
section's own rules in the first emitted section. -/
theorem c10_pending_rules :
    (∀ (secs : List PSection) (p : Option (List Char)) (rs : List PRule)
       (l : Line) (rest : List Line),
       startswith "### **".data (pstrip l) = true →
       endswith "**".data (pstrip l) = true →
       scan1 ⟨secs, none, p, rs⟩ (l :: rest) =
         scan1 ⟨secs, some (secTitle (pstrip l)), p, rs⟩ rest)
  ∧ extract1 ("**1. A**\nx\n### **S**\n**2. B**\ny\n### **T**\n**3. C**").data =
      [⟨"S".data, none, [⟨1, "A".data, [], []⟩, ⟨2, "B".data, [], []⟩]⟩,
       ⟨"T".data, none, [⟨3, "C".data, [], []⟩]⟩] := by
  constructor
  · intro secs p rs l rest h1 h2
    have hhc : secHdrCond (pstrip l) = true := by
      unfold secHdrCond
      rw [h1, h2]
      rfl
    rw [scan1_sec _ rest (tierOf_of_secHdr h1) hhc]
    simp [flushList, flushCond, curSecTruthy]
  · exact extract1_eval (by decide)

/-- Witness for C10: a section header processed with no open section and a
pending rule leaves the accumulator untouched. -/
theorem c10_pending_rules_witness :
    scan1 ⟨[], none, none, [⟨1, "A".data, [], []⟩]⟩ ("### **S**".data :: []) =
      scan1 ⟨[], some (secTitle (pstrip "### **S**".data)), none,
        [⟨1, "A".data, [], []⟩]⟩ [] :=
  c10_pending_rules.1 [] none [⟨1, "A".data, [], []⟩] "### **S**".data []
    (by decide) (by decide)

/-- C9 (amended).  Every section emitted by the complete variant's grouping
has priority `critical`, `high` or `important`.  In the header-driven
variant every emitted section's priority is either one of the four tier
values or `None` — `None` occurring exactly for sections flushed before any
priority-tier header has been seen. -/
theorem c9_priorities :
    (∀ (content : List Char) (sec : PSection), sec ∈ extract1 content →
       sec.priority = none ∨ sec.priority = some "critical".data ∨
       sec.priority = some "high".data ∨
       sec.priority = some "important".data ∨
       sec.priority = some "info".data)
  ∧ (∀ (rs : List PRule) (sec : GSection), sec ∈ group2 rs →
       sec.priority = "critical".data ∨ sec.priority = "high".data ∨
       sec.priority = "important".data) := by
  constructor
  · intro content sec hsec
    exact scan1_prioInv ⟨[], none, none, []⟩ (splitNl content)
      (Or.inl rfl) (by intro s hs; cases hs) sec hsec
  · intro rs sec hsec
    exact group2Go_prio rs none [] sec hsec

/-- Witness for C9: the single section of a two-line document, and the
first section of a small grouping run. -/
theorem c9_priorities_witness :
    ((⟨"S".data, none, [⟨1, "A".data, [], []⟩]⟩ : PSection).priority = none ∨
     (⟨"S".data, none, [⟨1, "A".data, [], []⟩]⟩ : PSection).priority =
       some "critical".data ∨
     (⟨"S".data, none, [⟨1, "A".data, [], []⟩]⟩ : PSection).priority =
       some "high".data ∨
     (⟨"S".data, none, [⟨1, "A".data, [], []⟩]⟩ : PSection).priority =
       some "important".data ∨
     (⟨"S".data, none, [⟨1, "A".data, [], []⟩]⟩ : PSection).priority =
       some "info".data) := by
  have h := c9_priorities.1 ("### **S**\n**1. A**").data
    ⟨"S".data, none, [⟨1, "A".data, [], []⟩]⟩
    (by
      rw [@extract1_eval ("### **S**\n**1. A**").data
        [⟨"S".data, none, [⟨1, "A".data, [], []⟩]⟩] (by decide)]
      simp)
  exact h

/-- Counterexample for C9 as stated: a section flushed before any
priority-tier header carries the null priority, which is none of the four
tier values. -/
theorem c9_priorities_cex :
    extract1 ("### **S**\n**1. A**").data =
      [⟨"S".data, none, [⟨1, "A".data, [], []⟩]⟩] ∧
    (none : Option (List Char)) ∉
      [some "critical".data, some "high".data, some "important".data,
       some "info".data] := by
  refine ⟨extract1_eval (by decide), by decide⟩

/-- C6: both scan loops, in their faithful fueled index-driven form,
terminate on every input within `len(lines) + 1` iterations and produce
the extraction result — there is no fatal path. -/
theorem c6_termination (content : List Char) :
    loop1 (splitNl content) ((splitNl content).length + 1) 0
      ⟨[], none, none, []⟩ = some (extract1 content) ∧
    loop2 (splitNl content) ((splitNl content).length + 1) 0 [] =
      some (extractRules2 content) := by
  constructor
  · have h := loop1_eq (splitNl content) ((splitNl content).length + 1) 0
      ⟨[], none, none, []⟩ (by omega)
    rw [List.drop_zero] at h
    exact h
  · have h := loop2_eq (splitNl content) ((splitNl content).length + 1) 0
      [] (by omega)
    rw [List.drop_zero] at h
    simpa [extractRules2] using h

/-- C7 (amended).  For a field containing no backslash (and no newline,
which cannot occur in a field read from a single input line), the emitted
escaping keeps the double-quoted literal well formed and parsing it back
recovers the field exactly: the literal parser stops at the intended
closing quote and returns the original text. -/
theorem c7_escaping (f rest : List Char) (hb : '\\' ∉ f) (hn : '\n' ∉ f) :
    litParse (fieldEsc f ++ '"' :: rest) = some (f, rest) :=
  litParse_fieldEsc f rest hb hn

/-- Witness for C7: a field containing both kinds of quote. -/
theorem c7_escaping_witness :
    litParse (fieldEsc "a\"b'c".data ++ '"' :: ",".data) =
      some ("a\"b'c".data, ",".data) :=
  c7_escaping "a\"b'c".data ",".data (by decide) (by decide)

/-- Counterexample for C7 as stated: a field consisting of one backslash is
emitted unchanged, so the backslash swallows the closing quote and the
emitted literal is not syntactically valid (the parser fails instead of
recovering the field). -/
theorem c7_escaping_cex :
    litParse (fieldEsc "\\".data ++ '"' :: []) = none ∧
    (none : Option (List Char × List Char)) ≠ some ("\\".data, []) := by
  refine ⟨by decide, by decide⟩

/-- C8 (amended).  For every Document all of whose text fields are
single-line — the section title, the rendered priority, and every rule's
title, description and source newline-free, as holds for every
extractor-built Document — emitting with either variant's emitter and
re-extracting the `number:` fields from the emitted module recovers
exactly the Document's rule numbers, in order.  A newline in any of those
fields (a section title as much as a rule title) can break the round
trip. -/
theorem c8_roundtrip :
    (∀ secs : List PSection, (∀ s ∈ secs, secOneLine s) →
       numExtract (emitDoc1 secs) = docNums1 secs)
  ∧ (∀ secs : List GSection, (∀ s ∈ secs, gsecOneLine s) →
       numExtract (emitDoc2 secs) = docNums2 secs) :=
  ⟨fun _ h => numExtract_emitDoc1 h, fun _ h => numExtract_emitDoc2 h⟩

/-- Witness for C8: a one-section document through the header-driven
emitter. -/
theorem c8_roundtrip_witness :
    numExtract (emitDoc1
      [⟨"S".data, some "critical".data, [⟨3, "T".data, "d".data, "s".data⟩]⟩]) =
      docNums1
        [⟨"S".data, some "critical".data,
          [⟨3, "T".data, "d".data, "s".data⟩]⟩] :=
  c8_roundtrip.1
    [⟨"S".data, some "critical".data, [⟨3, "T".data, "d".data, "s".data⟩]⟩]
    (by
      intro s hs
      simp at hs
      rw [hs]
      refine ⟨by decide, by decide, ?_⟩
      intro r hr
      simp at hr
      rw [hr]
      exact ⟨by decide, by decide, by decide⟩)

/-- Counterexample for C8 as stated: a title containing a newline and a
crafted `number:` line makes the re-extraction see an extra number, so the
round trip fails for Documents with multi-line fields. -/
theorem c8_roundtrip_cex :
    numExtract (emitDoc1
      [⟨"S".data, some "critical".data,
        [⟨7, ("A\n                number: 42,\n B").data, [], []⟩]⟩]) =
      [7, 42] ∧
    docNums1
      [⟨"S".data, some "critical".data,
        [⟨7, ("A\n                number: 42,\n B").data, [], []⟩]⟩] = [7] ∧
    ([7, 42] : List Nat) ≠ [7] := by
  refine ⟨by decide, by decide, by decide⟩
